import Mathlib

/-!
Verification of the balance/settlement computation engine of the sha2etna
expense-sharing app: the ledger aggregator (`calculateGroupBalances` in
`src/services/SettlementService.ts`), the expense split allocator
(`distributeShares` / `ensureParticipants` in the expense service), the debt
minimizer (`buildDebtLines` in `src/pages/Dashboard.tsx`), the payment
confirmation operations (`src/services/PaymentService.ts`) and the
membership-change guards (`leaveGroup` / `removeMember` / `deleteGroup`).

Currency amounts are embedded as rationals; the JavaScript
`Number(x.toFixed(2))` re-rounding that the source applies after every
accumulation step is embedded explicitly as `round2`.  All definitions are
translated from the TypeScript source; definitions whose name starts with
`spec` transcribe the natural-language specification instead and are only
used to compare the two.
-/

namespace Sha2etna

/-- Payment status, from `TransactionStatus` in `src/types.ts`. -/
inductive TransactionStatus where
  | PENDING
  | COMPLETED
  | CONFIRMED
  | REJECTED
deriving DecidableEq, Repr

/-- `Number(value.toFixed(2))` / `Math.round(value * 100) / 100`: round to two
decimal places, ties rounded up (towards `+∞`), which is what both JS
operations do on decimal inputs. -/
def round2 (q : ℚ) : ℚ := (⌊q * 100 + 1 / 2⌋ : ℤ) / 100

/-- `Math.round`: round to the nearest integer, ties towards `+∞`. -/
def jsRound (q : ℚ) : ℤ := ⌊q + 1 / 2⌋

/-- A rational is an exact two-decimal currency value (a whole number of
cents). -/
def isCents (q : ℚ) : Prop := (q * 100).den = 1

instance (q : ℚ) : Decidable (isCents q) := by unfold isCents; infer_instance

/-- One member's share row of one expense (`ExpenseSplit` in `src/types.ts`,
restricted to the fields the settlement computation reads). -/
structure ExpenseSplit where
  userId : String
  amount : ℚ
deriving DecidableEq, Repr

/-- An expense with its split rows (`ExpenseWithSplits`), restricted to the
fields the settlement computation reads.  The `splits` field carries exactly
the `expense_splits` rows persisted for this expense. -/
structure Expense where
  payerId : String
  amount : ℚ
  splits : List ExpenseSplit
deriving DecidableEq, Repr

/-- A payment row (`Payment` in `src/types.ts`). -/
structure Payment where
  id : String
  fromId : String
  toId : String
  amount : ℚ
  status : TransactionStatus
  confirmed_at : Option String
deriving DecidableEq, Repr

/-- The data `calculateGroupBalances` fetches for one group: its expenses
(each with its split rows) and its payments. -/
structure GroupData where
  expenses : List Expense
  payments : List Payment
deriving DecidableEq, Repr

/-- A derived per-member balance row (`UserBalance` in `src/types.ts`). -/
structure UserBalance where
  userId : String
  totalPaid : ℚ
  totalShare : ℚ
  totalSent : ℚ
  totalReceived : ℚ
  balance : ℚ
deriving DecidableEq, Repr

/-- The statuses that count toward balances (`PAYMENT_STATUSES` in
`src/services/SettlementService.ts`). -/
def countedStatus (s : TransactionStatus) : Bool :=
  s = TransactionStatus.COMPLETED ∨ s = TransactionStatus.CONFIRMED

/-- One step of `accumulate` in `SettlementService.ts`:
`map.set(key, Number(((map.get(key) || 0) + delta).toFixed(2)))`. -/
def accumulate (acc delta : ℚ) : ℚ := round2 (acc + delta)

/-- The value a totals `Map` ends up holding for one key: the `accumulate`
steps for that key run in list order, starting from 0. -/
def accumFold (l : List ℚ) : ℚ := l.foldl accumulate 0

/-- The flat `expense_splits` rows of the group (the settlement service
fetches them joined on the group's expenses). -/
def splitRows (g : GroupData) : List ExpenseSplit :=
  (g.expenses.map Expense.splits).flatten

/-- The payments that pass the `PAYMENT_STATUSES` filter. -/
def countedPayments (g : GroupData) : List Payment :=
  g.payments.filter (fun p => countedStatus p.status)

/-- `paidTotals.get(u)`: accumulated amounts of the group's expenses paid
by `u`. -/
def totalPaid (g : GroupData) (u : String) : ℚ :=
  accumFold ((g.expenses.filter (fun e => e.payerId = u)).map Expense.amount)

/-- `shareTotals.get(u)`: accumulated amounts of the split rows of `u`. -/
def totalShare (g : GroupData) (u : String) : ℚ :=
  accumFold (((splitRows g).filter (fun s => s.userId = u)).map ExpenseSplit.amount)

/-- `sentTotals.get(u)`: accumulated amounts of counted payments sent by
`u`. -/
def totalSent (g : GroupData) (u : String) : ℚ :=
  accumFold (((countedPayments g).filter (fun p => p.fromId = u)).map Payment.amount)

/-- `receivedTotals.get(u)`: accumulated amounts of counted payments received
by `u`. -/
def totalReceived (g : GroupData) (u : String) : ℚ :=
  accumFold (((countedPayments g).filter (fun p => p.toId = u)).map Payment.amount)

/-- The net balance `calculateGroupBalances` computes for `u`:
`roundCurrency((totalPaid - totalShare) + totalSent - totalReceived)`. -/
def balanceOf (g : GroupData) (u : String) : ℚ :=
  round2 ((totalPaid g u - totalShare g u) + totalSent g u - totalReceived g u)

/-- JS `Set.prototype.add`: append the element unless already present. -/
def insertUnique (l : List String) (x : String) : List String :=
  if x ∈ l then l else l ++ [x]

/-- Iteration order of a JS `Set` built from a list: first occurrences, in
order. -/
def firstDedup (l : List String) : List String := l.foldl insertUnique []

/-- The `userIds` set of `calculateGroupBalances`: every user appearing in a
paid, share, sent or received total. -/
def userIds (g : GroupData) : List String :=
  firstDedup (g.expenses.map Expense.payerId ++ (splitRows g).map ExpenseSplit.userId
    ++ (countedPayments g).map Payment.fromId ++ (countedPayments g).map Payment.toId)

/-- The `UserBalance` record `calculateGroupBalances` builds for one user. -/
def mkUserBalance (g : GroupData) (u : String) : UserBalance :=
  { userId := u
    totalPaid := round2 (totalPaid g u)
    totalShare := round2 (totalShare g u)
    totalSent := round2 (totalSent g u)
    totalReceived := round2 (totalReceived g u)
    balance := balanceOf g u }

/-- One insertion step of the final `balances.sort((a, b) => b.balance -
a.balance)` (descending by balance). -/
def insertDesc (x : UserBalance) : List UserBalance → List UserBalance
  | [] => [x]
  | y :: ys => if y.balance < x.balance then x :: y :: ys else y :: insertDesc x ys

/-- Sort descending by balance. -/
def sortByBalanceDesc (l : List UserBalance) : List UserBalance :=
  l.foldr insertDesc []

/-- `calculateGroupBalances` (`src/services/SettlementService.ts`), applied to
the fetched group data: one `UserBalance` row per active user, sorted by
descending balance. -/
def calculateGroupBalances (g : GroupData) : List UserBalance :=
  sortByBalanceDesc ((userIds g).map (mkUserBalance g))

/-- Transcribes the spec formula: `totalPaid(u) = Σ amount of expenses where
payerId = u` (plain sum, no intermediate rounding). -/
def specTotalPaid (g : GroupData) (u : String) : ℚ :=
  ((g.expenses.filter (fun e => e.payerId = u)).map Expense.amount).sum

/-- Transcribes the spec formula: `totalShare(u) = Σ split.amount over all
splits where split.userId = u`. -/
def specTotalShare (g : GroupData) (u : String) : ℚ :=
  (((splitRows g).filter (fun s => s.userId = u)).map ExpenseSplit.amount).sum

/-- Transcribes the spec formula: `totalSent(u) = Σ payment.amount where
payment.from = u and status ∈ COMPLETED, CONFIRMED`. -/
def specTotalSent (g : GroupData) (u : String) : ℚ :=
  (((countedPayments g).filter (fun p => p.fromId = u)).map Payment.amount).sum

/-- Transcribes the spec formula: `totalReceived(u) = Σ payment.amount where
payment.to = u and status ∈ COMPLETED, CONFIRMED`. -/
def specTotalReceived (g : GroupData) (u : String) : ℚ :=
  (((countedPayments g).filter (fun p => p.toId = u)).map Payment.amount).sum

/-- Transcribes the spec formula:
`balance(u) = (totalPaid(u) − totalShare(u)) + totalSent(u) − totalReceived(u)`. -/
def specBalance (g : GroupData) (u : String) : ℚ :=
  (specTotalPaid g u - specTotalShare g u) + specTotalSent g u - specTotalReceived g u

/-- A service error (`createServiceError` wraps a message and a context
string). -/
structure ServiceError where
  message : String
  context : String
deriving DecidableEq, Repr

/-- `'لا يوجد مشاركين للمصروف'` — the empty-participants error of
`distributeShares`. -/
def noParticipantsError : ServiceError :=
  { message := "لا يوجد مشاركين للمصروف", context := "حساب توزيع المصروف" }

/-- `POSITIVE_AMOUNT_ERROR` in `src/unnamed/part_000`. -/
def POSITIVE_AMOUNT_ERROR : String := "قيمة المصروف يجب أن تكون أكبر من صفر"

/-- `assertValidAmount` (`src/unnamed/part_000`): rejects non-positive
amounts.  (`Number.isFinite` always holds for a rational.) -/
def assertValidAmount (value : ℚ) (context : String) : Except ServiceError ℚ :=
  if value ≤ 0 then .error { message := POSITIVE_AMOUNT_ERROR, context := context }
  else .ok value

/-- One JS record assignment `shares[userId] = v`: overwrite in place if the
key exists, else append. -/
def recordSet (shares : List (String × ℚ)) (userId : String) (v : ℚ) :
    List (String × ℚ) :=
  if shares.any (fun p => p.1 = userId) then
    shares.map (fun p => if p.1 = userId then (userId, v) else p)
  else shares ++ [(userId, v)]

/-- Record lookup `shares[userId]`. -/
def recordGet (shares : List (String × ℚ)) (userId : String) : Option ℚ :=
  (shares.find? (fun p => p.1 = userId)).map Prod.snd

/-- The `participantIds.forEach` loop of `distributeShares`: hand the first
`remainder` participants one extra cent and assign each share into the
record. -/
def distributeLoop : List String → ℤ → ℤ → List (String × ℚ) → List (String × ℚ)
  | [], _, _, shares => shares
  | userId :: rest, baseShare, remainder, shares =>
    let shareInCents : ℤ := if 0 < remainder then baseShare + 1 else baseShare
    let remainder' : ℤ := if 0 < remainder then remainder - 1 else remainder
    distributeLoop rest baseShare remainder' (recordSet shares userId ((shareInCents : ℚ) / 100))

/-- `distributeShares` (`src/unnamed/part_000`): convert to cents with
`Math.round`, floor-divide by the participant count, and give the first
`remainder` participants one extra cent. -/
def distributeShares (total : ℚ) (participantIds : List String) :
    Except ServiceError (List (String × ℚ)) :=
  if participantIds.length = 0 then .error noParticipantsError
  else
    let centsTotal : ℤ := jsRound (total * 100)
    let baseShare : ℤ := centsTotal.fdiv participantIds.length
    let remainder : ℤ := centsTotal - baseShare * participantIds.length
    .ok (distributeLoop participantIds baseShare remainder [])

/-- The allocation path of `addExpense` / `updateExpense`
(`src/unnamed/part_000`): `assertValidAmount` on the amount, then
`distributeShares`. -/
def allocateShares (amount : ℚ) (participantIds : List String) (context : String) :
    Except ServiceError (List (String × ℚ)) :=
  (assertValidAmount amount context).bind fun a => distributeShares a participantIds

/-- `ensureParticipants` (`src/unnamed/part_000`):
`Array.from(new Set(participants.filter(Boolean)).add(payerId))` — drop empty
ids, dedup keeping first occurrences, append the payer if absent. -/
def ensureParticipants (participants : List String) (payerId : String) :
    List String :=
  insertUnique (firstDedup (participants.filter (fun s => ¬ s = ""))) payerId

/-- A suggested transfer (`DebtLine` in `src/pages/Dashboard.tsx`). -/
structure DebtLine where
  fromId : String
  toId : String
  amount : ℚ
deriving DecidableEq, Repr

/-- A remaining debtor or creditor entry of the two-pointer sweep
(`{id, amount}` in `buildDebtLines`). -/
structure Party where
  id : String
  amount : ℚ
deriving DecidableEq, Repr

/-- The `while` loop of `buildDebtLines`: match the current debtor against the
current creditor, transfer `min` of the remainders, emit the line when the
transfer exceeds the 0.01 epsilon, and advance whichever side drops to at most
0.01.  When the debtor's remainder stays above 0.01 the transfer equalled the
creditor's remainder, so the creditor's remainder hit 0 and only the creditor
advances — exactly what the source's two independent checks do. -/
def sweep : List Party → List Party → List DebtLine
  | [], _ => []
  | _ :: _, [] => []
  | d :: ds, c :: cs =>
    let t := min d.amount c.amount
    let emitted : List DebtLine :=
      if 1 / 100 < t then [{ fromId := d.id, toId := c.id, amount := round2 t }] else []
    if d.amount - t ≤ 1 / 100 then
      if c.amount - t ≤ 1 / 100 then
        emitted ++ sweep ds cs
      else
        emitted ++ sweep ds ({ id := c.id, amount := c.amount - t } :: cs)
    else
      emitted ++ sweep ({ id := d.id, amount := d.amount - t } :: ds) cs
termination_by ds cs => ds.length + cs.length
decreasing_by all_goals simp_arith

/-- `buildDebtLines` (`src/pages/Dashboard.tsx`): filter balances into debtors
(`balance < -0.01`, amount `Math.abs(balance)`) and creditors
(`balance > 0.01`), then run the two-pointer sweep. -/
def buildDebtLines (balances : List UserBalance) : List DebtLine :=
  let debtors := (balances.filter (fun b => b.balance < -(1 / 100))).map
    (fun b => { id := b.userId, amount := |b.balance| : Party })
  let creditors := (balances.filter (fun b => 1 / 100 < b.balance)).map
    (fun b => { id := b.userId, amount := b.balance : Party })
  sweep debtors creditors

/-- Sum of the amounts a user sends in a transfer list. -/
def sentBy (u : String) (lines : List DebtLine) : ℚ :=
  ((lines.filter (fun l => l.fromId = u)).map DebtLine.amount).sum

/-- Sum of the amounts a user receives in a transfer list. -/
def recvBy (u : String) (lines : List DebtLine) : ℚ :=
  ((lines.filter (fun l => l.toId = u)).map DebtLine.amount).sum

/-- Total amount of a transfer list. -/
def totalAmt (lines : List DebtLine) : ℚ := (lines.map DebtLine.amount).sum

/-- Total remaining amount of a party list. -/
def sumAmt (ps : List Party) : ℚ := (ps.map Party.amount).sum

/-- `confirmPayment` (`src/services/PaymentService.ts`): the
`update({status: CONFIRMED, confirmed_at: now}).eq('id', paymentId)` call on
the payments table — every row with the given id is set to `CONFIRMED`,
whatever its current status. -/
def confirmPaymentUpdate (payments : List Payment) (paymentId now : String) :
    List Payment :=
  payments.map fun p =>
    if p.id = paymentId then
      { p with status := TransactionStatus.CONFIRMED, confirmed_at := some now }
    else p

/-- `rejectPayment` (`src/services/PaymentService.ts`): the
`update({status: REJECTED}).eq('id', paymentId)` call on the payments
table. -/
def rejectPaymentUpdate (payments : List Payment) (paymentId : String) :
    List Payment :=
  payments.map fun p =>
    if p.id = paymentId then { p with status := TransactionStatus.REJECTED } else p

/-- A group row (`Group` in `src/types.ts`, restricted to the fields the
membership operations read). -/
structure Group where
  id : String
  name : String
  created_by : String
  members : List String
deriving DecidableEq, Repr

/-- The outstanding-balance guard of `leaveGroup` / `removeMember`:
`memberBalance && Math.abs(memberBalance.balance) > 0.01`. -/
def memberBlocked (balances : List UserBalance) (userId : String) : Bool :=
  (balances.find? (fun b => b.userId = userId)).any
    (fun b => decide (1 / 100 < |b.balance|))

/-- `leaveGroup` (`src/unnamed/part_004`), after the group fetch: `none` input
means the group was not found (the source returns `false`); otherwise the
member's computed balance must be within 0.01 of zero, and the member is
filtered out of `members`. -/
def leaveGroup (fetched : Option Group) (gdata : GroupData) (userId : String) :
    Except ServiceError (Option Group) :=
  match fetched with
  | none => .ok none
  | some group =>
    let balances := calculateGroupBalances gdata
    if memberBlocked balances userId then
      .error { message := "لا يمكن مغادرة المجموعة قبل تسوية الديون"
               context := "تعذر مغادرة المجموعة" }
    else
      .ok (some { group with members := group.members.filter (fun m => ¬ m = userId) })

/-- `removeMember` (`src/unnamed/part_004`), after the group fetch: only the
owner may remove another member, and the member's computed balance must be
within 0.01 of zero. -/
def removeMember (fetched : Option Group) (gdata : GroupData)
    (adminId memberId : String) : Except ServiceError Group :=
  match fetched with
  | none => .error { message := "المجموعة غير موجودة", context := "إزالة العضو" }
  | some group =>
    if ¬ group.created_by = adminId then
      .error { message := "فقط مالك المجموعة يمكنه إزالة الأعضاء", context := "إزالة العضو" }
    else if memberId = adminId then
      .error { message := "لا يمكنك إزالة نفسك", context := "إزالة العضو" }
    else
      let balances := calculateGroupBalances gdata
      if memberBlocked balances memberId then
        .error { message := "لا يمكن إزالة عضو لديه ديون غير مسوّاة"
                 context := "إزالة العضو" }
      else
        .ok { group with members := group.members.filter (fun m => ¬ m = memberId) }

/-- `deleteGroup` (`src/unnamed/part_004`), after the group fetch: only the
owner may delete, and no member may have a computed balance beyond 0.01. -/
def deleteGroup (fetched : Option Group) (gdata : GroupData) (adminId : String) :
    Except ServiceError Unit :=
  match fetched with
  | none => .error { message := "المجموعة غير موجودة", context := "حذف المجموعة" }
  | some group =>
    if ¬ group.created_by = adminId then
      .error { message := "فقط مالك المجموعة يمكنه حذفها", context := "حذف المجموعة" }
    else
      let balances := calculateGroupBalances gdata
      if balances.any (fun b => decide (1 / 100 < |b.balance|)) then
        .error { message := "لا يمكن حذف المجموعة وهناك ديون غير مسوّاة"
                 context := "حذف المجموعة" }
      else
        .ok ()

/-- All amounts in a group dataset are exact two-decimal currency values. -/
def centsData (g : GroupData) : Prop :=
  (∀ e ∈ g.expenses, isCents e.amount ∧ ∀ s ∈ e.splits, isCents s.amount) ∧
  ∀ p ∈ g.payments, isCents p.amount

instance (g : GroupData) : Decidable (centsData g) := by
  unfold centsData; infer_instance

/-- Example expense: A paid 10.00, split equally between A and B. -/
def exExpense1 : Expense :=
  { payerId := "A", amount := 10
    splits := [{ userId := "A", amount := 5 }, { userId := "B", amount := 5 }] }

/-- Example payment: B sent A 5.00, awaiting confirmation. -/
def exPayment1 : Payment :=
  { id := "p1", fromId := "B", toId := "A", amount := 5
    status := TransactionStatus.PENDING, confirmed_at := none }

/-- Example group dataset with the pending payment. -/
def exG1 : GroupData := { expenses := [exExpense1], payments := [exPayment1] }

/-- Example group dataset with the pending payment removed. -/
def exG1R : GroupData := { expenses := [exExpense1], payments := [] }

/-- Example group dataset with the payment confirmed. -/
def exG1C : GroupData :=
  { expenses := [exExpense1]
    payments := [{ exPayment1 with status := TransactionStatus.CONFIRMED }] }

/-- Example group dataset with the expense removed. -/
def exG1E : GroupData := { expenses := [], payments := [exPayment1] }

/-- Example payment already in the terminal `REJECTED` status. -/
def exPaymentRejected : Payment :=
  { id := "p2", fromId := "A", toId := "B", amount := 5
    status := TransactionStatus.REJECTED, confirmed_at := none }

/-- Example group row: owner A, members A and B. -/
def exGroup : Group :=
  { id := "g1", name := "بيتنا", created_by := "A", members := ["A", "B"] }

/-- Balance list whose entries sum to zero while the 0.01-filter drops both
creditors: A owes 0.02, B and C are each owed 0.01. -/
def exBalances : List UserBalance :=
  [{ userId := "A", totalPaid := 0, totalShare := 2 / 100, totalSent := 0,
     totalReceived := 0, balance := -(2 / 100) },
   { userId := "B", totalPaid := 1 / 100, totalShare := 0, totalSent := 0,
     totalReceived := 0, balance := 1 / 100 },
   { userId := "C", totalPaid := 1 / 100, totalShare := 0, totalSent := 0,
     totalReceived := 0, balance := 1 / 100 }]

/-- Balance list with one debtor and one creditor, 5.00 each way. -/
def exBalances2 : List UserBalance :=
  [{ userId := "A", totalPaid := 0, totalShare := 5, totalSent := 0,
     totalReceived := 0, balance := -5 },
   { userId := "B", totalPaid := 5, totalShare := 0, totalSent := 0,
     totalReceived := 0, balance := 5 }]

theorem isCents_iff (q : ℚ) : isCents q ↔ ∃ k : ℤ, q = (k : ℚ) / 100 := by
  constructor
  · intro h
    refine ⟨(q * 100).num, ?_⟩
    have h1 : ((q * 100).num : ℚ) = q * 100 := by
      exact_mod_cast Rat.den_eq_one_iff (q * 100) |>.mp h
    rw [h1]
    ring
  · rintro ⟨k, rfl⟩
    have : (k : ℚ) / 100 * 100 = (k : ℚ) := by ring
    simp [isCents, this]

theorem isCents_add {a b : ℚ} (ha : isCents a) (hb : isCents b) :
    isCents (a + b) := by
  rw [isCents_iff] at *
  obtain ⟨k, rfl⟩ := ha
  obtain ⟨m, rfl⟩ := hb
  exact ⟨k + m, by push_cast; ring⟩

theorem isCents_neg {a : ℚ} (ha : isCents a) : isCents (-a) := by
  rw [isCents_iff] at *
  obtain ⟨k, rfl⟩ := ha
  exact ⟨-k, by push_cast [neg_div]; rfl⟩

theorem isCents_sub {a b : ℚ} (ha : isCents a) (hb : isCents b) :
    isCents (a - b) := by
  rw [sub_eq_add_neg]; exact isCents_add ha (isCents_neg hb)

theorem isCents_zero : isCents 0 := by
  rw [isCents_iff]; exact ⟨0, by norm_num⟩

theorem isCents_abs {a : ℚ} (ha : isCents a) : isCents |a| := by
  rcases abs_choice a with h | h <;> rw [h]
  · exact ha
  · exact isCents_neg ha

theorem isCents_min {a b : ℚ} (ha : isCents a) (hb : isCents b) :
    isCents (min a b) := by
  rcases min_choice a b with h | h <;> rw [h] <;> assumption

theorem list_sum_add (l : List α) (f g : α → ℚ) :
    (l.map (fun x => f x + g x)).sum = (l.map f).sum + (l.map g).sum := by
  induction l with
  | nil => simp
  | cons a t ih => simp [ih]; ring

theorem list_sum_sub (l : List α) (f g : α → ℚ) :
    (l.map (fun x => f x - g x)).sum = (l.map f).sum - (l.map g).sum := by
  induction l with
  | nil => simp
  | cons a t ih => simp [ih]; ring

/-- Summing an indicator over a duplicate-free list containing the key. -/
theorem sum_indicator_nodup {K : List String} (hnd : K.Nodup) {x : String}
    (hx : x ∈ K) (c : ℚ) :
    (K.map (fun u => if x = u then c else 0)).sum = c := by
  induction K with
  | nil => cases hx
  | cons a t ih =>
    rcases List.mem_cons.mp hx with h | h
    · subst h
      have hnot : x ∉ t := (List.nodup_cons.mp hnd).1
      have hz : (t.map (fun u => if x = u then c else 0)).sum = 0 := by
        apply List.sum_eq_zero
        intro y hy
        obtain ⟨u, hu, rfl⟩ := List.mem_map.mp hy
        simp only [ite_eq_right_iff]
        intro he
        exact absurd (he ▸ hu) hnot
      simp [hz]
    · have hne : x ≠ a := fun he => (List.nodup_cons.mp hnd).1 (he ▸ h)
      simp [hne, ih (List.nodup_cons.mp hnd).2 h]

/-- Filtered sums as indicator sums. -/
theorem filter_map_sum_eq_indicator (l : List α) (key : α → String) (v : α → ℚ)
    (u : String) :
    ((l.filter (fun x => key x = u)).map v).sum
      = (l.map (fun x => if key x = u then v x else 0)).sum := by
  induction l with
  | nil => simp
  | cons a t ih =>
    by_cases h : key a = u <;> simp [List.filter_cons, h, ih]

/-- Summing the per-key fiber sums over a duplicate-free key list that covers
every element gives the total sum. -/
theorem sum_fibers (l : List α) (key : α → String) (v : α → ℚ)
    (K : List String) (hnd : K.Nodup) (hcov : ∀ x ∈ l, key x ∈ K) :
    (K.map (fun u => ((l.filter (fun x => key x = u)).map v).sum)).sum
      = (l.map v).sum := by
  induction l with
  | nil => simp
  | cons a t ih =>
    have hstep : ∀ u, ((List.filter (fun x => decide (key x = u)) (a :: t)).map v).sum
        = (if key a = u then v a else 0)
          + ((List.filter (fun x => decide (key x = u)) t).map v).sum := by
      intro u
      by_cases h : key a = u <;> simp [List.filter_cons, h]
    simp only [hstep]
    rw [list_sum_add]
    have hcov' : ∀ x ∈ t, key x ∈ K := fun x hx => hcov x (List.mem_cons_of_mem a hx)
    rw [ih hcov']
    have hka : key a ∈ K := hcov a (List.mem_cons_self a t)
    have hind : (K.map (fun u => if key a = u then v a else 0)).sum = v a := by
      have := sum_indicator_nodup hnd hka (v a)
      simpa using this
    rw [hind]
    simp

theorem mem_foldl_insertUnique (l : List String) (acc : List String) (x : String) :
    x ∈ l.foldl insertUnique acc ↔ x ∈ acc ∨ x ∈ l := by
  induction l generalizing acc with
  | nil => simp
  | cons a t ih =>
    simp only [List.foldl_cons, ih]
    unfold insertUnique
    by_cases h : a ∈ acc
    · simp only [if_pos h]
      constructor
      · rintro (hx | hx)
        · exact Or.inl hx
        · exact Or.inr (List.mem_cons_of_mem a hx)
      · rintro (hx | hx)
        · exact Or.inl hx
        · rcases List.mem_cons.mp hx with rfl | hx
          · exact Or.inl h
          · exact Or.inr hx
    · simp only [if_neg h, List.mem_append, List.mem_singleton]
      constructor
      · rintro ((hx | hx) | hx)
        · exact Or.inl hx
        · exact Or.inr (List.mem_cons.mpr (Or.inl hx))
        · exact Or.inr (List.mem_cons.mpr (Or.inr hx))
      · rintro (hx | hx)
        · exact Or.inl (Or.inl hx)
        · rcases List.mem_cons.mp hx with rfl | hx
          · exact Or.inl (Or.inr rfl)
          · exact Or.inr hx

theorem mem_firstDedup (l : List String) (x : String) :
    x ∈ firstDedup l ↔ x ∈ l := by
  unfold firstDedup
  rw [mem_foldl_insertUnique]
  simp

theorem nodup_foldl_insertUnique (l : List String) (acc : List String)
    (hacc : acc.Nodup) : (l.foldl insertUnique acc).Nodup := by
  induction l generalizing acc with
  | nil => simpa
  | cons a t ih =>
    simp only [List.foldl_cons]
    apply ih
    unfold insertUnique
    by_cases h : a ∈ acc
    · simpa [h]
    · simp only [if_neg h]
      refine List.Nodup.append hacc (List.nodup_singleton a) ?_
      intro x hx hxa
      rw [List.mem_singleton] at hxa
      exact h (hxa ▸ hx)

theorem nodup_firstDedup (l : List String) : (firstDedup l).Nodup :=
  nodup_foldl_insertUnique l [] List.nodup_nil

/-- Filtering a duplicate-free list for one value. -/
theorem nodup_filter_eq (l : List String) (hnd : l.Nodup) (x : String) :
    l.filter (fun s => s = x) = if x ∈ l then [x] else [] := by
  induction l with
  | nil => simp
  | cons a t ih =>
    rcases List.nodup_cons.mp hnd with ⟨hna, hnt⟩
    by_cases h : a = x
    · subst h
      simp [List.filter_cons, ih hnt, hna]
    · have hxa : (x ∈ a :: t) ↔ (x ∈ t) := by
        constructor
        · intro hx
          rcases List.mem_cons.mp hx with he | hx
          · exact absurd he.symm h
          · exact hx
        · exact fun hx => List.mem_cons_of_mem a hx
      simp [List.filter_cons, h, ih hnt, hxa]

theorem insertDesc_perm (x : UserBalance) (l : List UserBalance) :
    (insertDesc x l).Perm (x :: l) := by
  induction l with
  | nil => simp [insertDesc]
  | cons y ys ih =>
    unfold insertDesc
    by_cases h : y.balance < x.balance
    · simp [h]
    · simp only [if_neg h]
      exact (List.Perm.cons y ih).trans (List.Perm.swap x y ys)

theorem sortByBalanceDesc_perm (l : List UserBalance) :
    (sortByBalanceDesc l).Perm l := by
  induction l with
  | nil => simp [sortByBalanceDesc]
  | cons y ys ih =>
    unfold sortByBalanceDesc at *
    simp only [List.foldr_cons]
    exact (insertDesc_perm y _).trans (List.Perm.cons y ih)

/-- On an exact cents value, two-decimal rounding is the identity. -/
theorem round2_cents {q : ℚ} (h : isCents q) : round2 q = q := by
  rw [isCents_iff] at h
  obtain ⟨k, rfl⟩ := h
  unfold round2
  have h100 : ((k : ℚ) / 100) * 100 = (k : ℚ) := by ring
  rw [h100]
  have hfl : ⌊(k : ℚ) + 1 / 2⌋ = k := by
    rw [Int.floor_eq_iff]
    constructor
    · linarith
    · linarith
  rw [hfl]

theorem isCents_sum (l : List ℚ) (h : ∀ x ∈ l, isCents x) : isCents l.sum := by
  induction l with
  | nil => simpa using isCents_zero
  | cons a t ih =>
    rw [List.sum_cons]
    exact isCents_add (h a (List.mem_cons_self a t))
      (ih fun x hx => h x (List.mem_cons_of_mem a hx))

theorem foldl_accumulate_cents (l : List ℚ) (acc : ℚ) (hacc : isCents acc)
    (h : ∀ x ∈ l, isCents x) : l.foldl accumulate acc = acc + l.sum := by
  induction l generalizing acc with
  | nil => simp
  | cons a t ih =>
    have hca : isCents (acc + a) := isCents_add hacc (h a (List.mem_cons_self a t))
    have hstep : accumulate acc a = acc + a := by
      unfold accumulate; exact round2_cents hca
    rw [List.foldl_cons, hstep,
      ih (acc + a) hca (fun x hx => h x (List.mem_cons_of_mem a hx)),
      List.sum_cons]
    ring

/-- When every amount is an exact cents value, the rounded accumulation equals
the plain sum. -/
theorem accumFold_cents (l : List ℚ) (h : ∀ x ∈ l, isCents x) :
    accumFold l = l.sum := by
  unfold accumFold
  rw [foldl_accumulate_cents l 0 isCents_zero h]
  ring

theorem centsData_split {g : GroupData} (h : centsData g) :
    ∀ s ∈ splitRows g, isCents s.amount := by
  intro s hs
  unfold splitRows at hs
  rw [List.mem_flatten] at hs
  obtain ⟨l, hl, hsl⟩ := hs
  obtain ⟨e, he, rfl⟩ := List.mem_map.mp hl
  exact (h.1 e he).2 s hsl

theorem centsData_payment {g : GroupData} (h : centsData g) :
    ∀ p ∈ countedPayments g, isCents p.amount := by
  intro p hp
  exact h.2 p (List.mem_of_mem_filter hp)

theorem totalPaid_eq_spec {g : GroupData} (h : centsData g) (u : String) :
    totalPaid g u = specTotalPaid g u := by
  unfold totalPaid specTotalPaid
  apply accumFold_cents
  intro x hx
  obtain ⟨e, he, rfl⟩ := List.mem_map.mp hx
  exact (h.1 e (List.mem_of_mem_filter he)).1

theorem totalShare_eq_spec {g : GroupData} (h : centsData g) (u : String) :
    totalShare g u = specTotalShare g u := by
  unfold totalShare specTotalShare
  apply accumFold_cents
  intro x hx
  obtain ⟨s, hs, rfl⟩ := List.mem_map.mp hx
  exact centsData_split h s (List.mem_of_mem_filter hs)

theorem totalSent_eq_spec {g : GroupData} (h : centsData g) (u : String) :
    totalSent g u = specTotalSent g u := by
  unfold totalSent specTotalSent
  apply accumFold_cents
  intro x hx
  obtain ⟨p, hp, rfl⟩ := List.mem_map.mp hx
  exact centsData_payment h p (List.mem_of_mem_filter hp)

theorem totalReceived_eq_spec {g : GroupData} (h : centsData g) (u : String) :
    totalReceived g u = specTotalReceived g u := by
  unfold totalReceived specTotalReceived
  apply accumFold_cents
  intro x hx
  obtain ⟨p, hp, rfl⟩ := List.mem_map.mp hx
  exact centsData_payment h p (List.mem_of_mem_filter hp)

theorem isCents_specTotalPaid {g : GroupData} (h : centsData g) (u : String) :
    isCents (specTotalPaid g u) := by
  apply isCents_sum
  intro x hx
  obtain ⟨e, he, rfl⟩ := List.mem_map.mp hx
  exact (h.1 e (List.mem_of_mem_filter he)).1

theorem isCents_specTotalShare {g : GroupData} (h : centsData g) (u : String) :
    isCents (specTotalShare g u) := by
  apply isCents_sum
  intro x hx
  obtain ⟨s, hs, rfl⟩ := List.mem_map.mp hx
  exact centsData_split h s (List.mem_of_mem_filter hs)

theorem isCents_specTotalSent {g : GroupData} (h : centsData g) (u : String) :
    isCents (specTotalSent g u) := by
  apply isCents_sum
  intro x hx
  obtain ⟨p, hp, rfl⟩ := List.mem_map.mp hx
  exact centsData_payment h p (List.mem_of_mem_filter hp)

theorem isCents_specTotalReceived {g : GroupData} (h : centsData g) (u : String) :
    isCents (specTotalReceived g u) := by
  apply isCents_sum
  intro x hx
  obtain ⟨p, hp, rfl⟩ := List.mem_map.mp hx
  exact centsData_payment h p (List.mem_of_mem_filter hp)

/-- Under exact cents data the code's rounded balance agrees with the spec's
plain formula. -/
theorem balanceOf_eq_spec {g : GroupData} (h : centsData g) (u : String) :
    balanceOf g u = specBalance g u := by
  unfold balanceOf specBalance
  rw [totalPaid_eq_spec h, totalShare_eq_spec h, totalSent_eq_spec h,
    totalReceived_eq_spec h]
  exact round2_cents (isCents_sub
    (isCents_add (isCents_sub (isCents_specTotalPaid h u) (isCents_specTotalShare h u))
      (isCents_specTotalSent h u))
    (isCents_specTotalReceived h u))

theorem mem_calculateGroupBalances {g : GroupData} {b : UserBalance} :
    b ∈ calculateGroupBalances g ↔ ∃ u ∈ userIds g, b = mkUserBalance g u := by
  unfold calculateGroupBalances
  rw [List.Perm.mem_iff (sortByBalanceDesc_perm _)]
  simp only [List.mem_map]
  constructor
  · rintro ⟨u, hu, rfl⟩
    exact ⟨u, hu, rfl⟩
  · rintro ⟨u, hu, rfl⟩
    exact ⟨u, hu, rfl⟩

/-- Balances depend only on the expenses and the counted payments. -/
theorem balanceOf_congr {g₁ g₂ : GroupData} (he : g₁.expenses = g₂.expenses)
    (hp : countedPayments g₁ = countedPayments g₂) (u : String) :
    balanceOf g₁ u = balanceOf g₂ u := by
  unfold balanceOf totalPaid totalShare totalSent totalReceived splitRows
  rw [he, hp]

theorem countedStatus_false {s : TransactionStatus}
    (h : s = TransactionStatus.PENDING ∨ s = TransactionStatus.REJECTED) :
    countedStatus s = false := by
  rcases h with h | h <;> subst h <;> rfl

/-- C1: for every user the returned balance equals
`(totalPaid − totalShare) + totalSent − totalReceived` with sent/received
summing only `COMPLETED`/`CONFIRMED` payments; a `PENDING` or `REJECTED`
payment contributes 0 to every balance, and confirming a pending payment
shifts the sender's balance by `+amount` and the receiver's by `−amount`. -/
theorem c1_balance_formula_and_payment_state_effect
    (g gRemoved gConfirmed : GroupData) (pre post : List Payment) (p : Payment)
    (hc : centsData g)
    (hsplit : g.payments = pre ++ p :: post)
    (hrm : gRemoved = { g with payments := pre ++ post })
    (hcf : gConfirmed =
      { g with payments := pre ++ { p with status := TransactionStatus.CONFIRMED } :: post })
    (hp : p.status = TransactionStatus.PENDING ∨ p.status = TransactionStatus.REJECTED) :
    (∀ b ∈ calculateGroupBalances g, b.balance = specBalance g b.userId)
    ∧ (∀ u, balanceOf g u = balanceOf gRemoved u)
    ∧ (∀ u, balanceOf gConfirmed u
        = balanceOf g u + (if u = p.fromId then p.amount else 0)
          - (if u = p.toId then p.amount else 0)) := by
  have hnc : countedStatus p.status = false := countedStatus_false hp
  have hpmem : p ∈ g.payments := by
    rw [hsplit]
    exact List.mem_append.mpr (Or.inr (List.mem_cons_self p post))
  have hpc : isCents p.amount := hc.2 p hpmem
  -- counted payments with the pending payment removed
  have hcpR : countedPayments g = countedPayments gRemoved := by
    subst hrm
    unfold countedPayments
    rw [hsplit]
    simp [List.filter_append, List.filter_cons, hnc]
  -- counted payments with the payment confirmed
  have hcpC : countedPayments gConfirmed =
      (pre.filter (fun q => countedStatus q.status))
        ++ { p with status := TransactionStatus.CONFIRMED }
          :: post.filter (fun q => countedStatus q.status) := by
    subst hcf
    unfold countedPayments
    simp [List.filter_append, List.filter_cons, countedStatus]
  have hcpG : countedPayments g =
      (pre.filter (fun q => countedStatus q.status))
        ++ post.filter (fun q => countedStatus q.status) := by
    unfold countedPayments
    rw [hsplit]
    simp [List.filter_append, List.filter_cons, hnc]
  have hcC : centsData gConfirmed := by
    subst hcf
    refine ⟨hc.1, ?_⟩
    intro q hq
    simp only [List.mem_append, List.mem_cons] at hq
    rcases hq with hq | hq | hq
    · exact hc.2 q (by rw [hsplit]; exact List.mem_append.mpr (Or.inl hq))
    · subst hq; exact hpc
    · exact hc.2 q (by
        rw [hsplit]
        exact List.mem_append.mpr (Or.inr (List.mem_cons_of_mem p hq)))
  refine ⟨?_, ?_, ?_⟩
  · intro b hb
    obtain ⟨u, _, rfl⟩ := mem_calculateGroupBalances.mp hb
    exact balanceOf_eq_spec hc u
  · intro u
    exact balanceOf_congr (by rw [hrm]) hcpR u
  · intro u
    have heC : gConfirmed.expenses = g.expenses := by rw [hcf]
    have hsentC : specTotalSent gConfirmed u
        = specTotalSent g u + (if u = p.fromId then p.amount else 0) := by
      unfold specTotalSent
      rw [hcpC, hcpG]
      by_cases hu : p.fromId = u
      · simp [List.filter_append, List.filter_cons, List.sum_append, hu]
        ring
      · have hu' : ¬ u = p.fromId := fun he => hu he.symm
        simp [List.filter_append, List.filter_cons, List.sum_append, hu, hu']
    have hrecvC : specTotalReceived gConfirmed u
        = specTotalReceived g u + (if u = p.toId then p.amount else 0) := by
      unfold specTotalReceived
      rw [hcpC, hcpG]
      by_cases hu : p.toId = u
      · simp [List.filter_append, List.filter_cons, List.sum_append, hu]
        ring
      · have hu' : ¬ u = p.toId := fun he => hu he.symm
        simp [List.filter_append, List.filter_cons, List.sum_append, hu, hu']
    have hpaidC : specTotalPaid gConfirmed u = specTotalPaid g u := by
      unfold specTotalPaid; rw [heC]
    have hshareC : specTotalShare gConfirmed u = specTotalShare g u := by
      unfold specTotalShare splitRows; rw [heC]
    rw [balanceOf_eq_spec hcC u, balanceOf_eq_spec hc u]
    unfold specBalance
    rw [hsentC, hrecvC, hpaidC, hshareC]
    ring

/-- Witness for C1 at the concrete dataset `exG1`. -/
theorem c1_witness :
    centsData exG1
    ∧ exG1.payments = [] ++ exPayment1 :: []
    ∧ ((∀ b ∈ calculateGroupBalances exG1, b.balance = specBalance exG1 b.userId)
      ∧ (∀ u, balanceOf exG1 u = balanceOf exG1R u)
      ∧ (∀ u, balanceOf exG1C u
          = balanceOf exG1 u + (if u = exPayment1.fromId then exPayment1.amount else 0)
            - (if u = exPayment1.toId then exPayment1.amount else 0))) := by
  have hc : centsData exG1 := by
    norm_num [centsData, exG1, exExpense1, exPayment1, isCents]
  exact ⟨hc, rfl,
    c1_balance_formula_and_payment_state_effect exG1 exG1R exG1C [] [] exPayment1
      hc rfl rfl rfl (Or.inl rfl)⟩

theorem payer_mem_userIds {g : GroupData} {e : Expense} (he : e ∈ g.expenses) :
    e.payerId ∈ userIds g := by
  unfold userIds
  rw [mem_firstDedup]
  simp only [List.mem_append, List.mem_map]
  exact Or.inl (Or.inl (Or.inl ⟨e, he, rfl⟩))

theorem splitUser_mem_userIds {g : GroupData} {s : ExpenseSplit}
    (hs : s ∈ splitRows g) : s.userId ∈ userIds g := by
  unfold userIds
  rw [mem_firstDedup]
  simp only [List.mem_append, List.mem_map]
  exact Or.inl (Or.inl (Or.inr ⟨s, hs, rfl⟩))

theorem sender_mem_userIds {g : GroupData} {p : Payment}
    (hp : p ∈ countedPayments g) : p.fromId ∈ userIds g := by
  unfold userIds
  rw [mem_firstDedup]
  simp only [List.mem_append, List.mem_map]
  exact Or.inl (Or.inr ⟨p, hp, rfl⟩)

theorem receiver_mem_userIds {g : GroupData} {p : Payment}
    (hp : p ∈ countedPayments g) : p.toId ∈ userIds g := by
  unfold userIds
  rw [mem_firstDedup]
  simp only [List.mem_append, List.mem_map]
  exact Or.inr ⟨p, hp, rfl⟩

/-- C4: when every expense's split rows sum to the expense amount, the
returned balances sum to zero. -/
theorem c4_conservation (g : GroupData) (hc : centsData g)
    (hsum : ∀ e ∈ g.expenses, (e.splits.map ExpenseSplit.amount).sum = e.amount) :
    ((calculateGroupBalances g).map UserBalance.balance).sum = 0 := by
  unfold calculateGroupBalances
  rw [List.Perm.sum_eq (List.Perm.map UserBalance.balance
    (sortByBalanceDesc_perm ((userIds g).map (mkUserBalance g))))]
  rw [List.map_map]
  have hbal : (userIds g).map (UserBalance.balance ∘ mkUserBalance g)
      = (userIds g).map (specBalance g) := by
    apply List.map_congr_left
    intro u _
    exact balanceOf_eq_spec hc u
  rw [hbal]
  have hnd : (userIds g).Nodup := nodup_firstDedup _
  have hpaid : ((userIds g).map (specTotalPaid g)).sum
      = (g.expenses.map Expense.amount).sum := by
    unfold specTotalPaid
    exact sum_fibers g.expenses Expense.payerId Expense.amount (userIds g) hnd
      fun e he => payer_mem_userIds he
  have hshare : ((userIds g).map (specTotalShare g)).sum
      = (g.expenses.map Expense.amount).sum := by
    unfold specTotalShare
    rw [sum_fibers (splitRows g) ExpenseSplit.userId ExpenseSplit.amount (userIds g) hnd
      fun s hs => splitUser_mem_userIds hs]
    unfold splitRows
    rw [List.map_flatten, List.sum_flatten, List.map_map, List.map_map]
    apply congrArg
    apply List.map_congr_left
    intro e he
    exact hsum e he
  have hsent : ((userIds g).map (specTotalSent g)).sum
      = ((countedPayments g).map Payment.amount).sum := by
    unfold specTotalSent
    exact sum_fibers (countedPayments g) Payment.fromId Payment.amount (userIds g) hnd
      fun p hp => sender_mem_userIds hp
  have hrecv : ((userIds g).map (specTotalReceived g)).sum
      = ((countedPayments g).map Payment.amount).sum := by
    unfold specTotalReceived
    exact sum_fibers (countedPayments g) Payment.toId Payment.amount (userIds g) hnd
      fun p hp => receiver_mem_userIds hp
  have hsplit4 : (userIds g).map (specBalance g)
      = (userIds g).map (fun u =>
          (specTotalPaid g u - specTotalShare g u) + specTotalSent g u
            - specTotalReceived g u) := rfl
  rw [hsplit4, list_sum_sub, list_sum_add, list_sum_sub, hpaid, hshare, hsent, hrecv]
  ring

/-- Witness for C4 at the concrete dataset `exG1C`. -/
theorem c4_witness :
    centsData exG1C
    ∧ (∀ e ∈ exG1C.expenses, (e.splits.map ExpenseSplit.amount).sum = e.amount)
    ∧ ((calculateGroupBalances exG1C).map UserBalance.balance).sum = 0 := by
  have hc : centsData exG1C := by
    norm_num [centsData, exG1C, exExpense1, exPayment1, isCents]
  have hs : ∀ e ∈ exG1C.expenses, (e.splits.map ExpenseSplit.amount).sum = e.amount := by
    norm_num [exG1C, exExpense1]
  exact ⟨hc, hs, c4_conservation exG1C hc hs⟩

/-- The rows of the output of `calculateGroupBalances` carrying a given user
id: the single record of that user when active, nothing otherwise. -/
theorem filter_calculateGroupBalances (g : GroupData) (M : String) :
    (calculateGroupBalances g).filter (fun b => b.userId = M)
      = if M ∈ userIds g then [mkUserBalance g M] else [] := by
  have hperm : ((calculateGroupBalances g).filter (fun b => b.userId = M)).Perm
      (((userIds g).map (mkUserBalance g)).filter (fun b => b.userId = M)) :=
    List.Perm.filter _ (sortByBalanceDesc_perm _)
  have hmapfilter : ((userIds g).map (mkUserBalance g)).filter (fun b => b.userId = M)
      = ((userIds g).filter (fun u => u = M)).map (mkUserBalance g) := by
    rw [List.filter_map]
    rfl
  have hnodupU : (userIds g).Nodup := by
    unfold userIds; exact nodup_firstDedup _
  rw [hmapfilter, nodup_filter_eq (userIds g) hnodupU M] at hperm
  by_cases hM : M ∈ userIds g
  · rw [if_pos hM] at hperm
    rw [if_pos hM]
    exact List.perm_singleton.mp (by simpa using hperm)
  · rw [if_neg hM] at hperm
    rw [if_neg hM]
    exact List.perm_nil.mp (by simpa using hperm)

/-- C6: an expense with no split row for `M` and a payer other than `M`
contributes nothing to any of `M`'s totals — the balance data computed for `M`
is the same with and without the expense. -/
theorem c6_new_member_non_retroactive
    (g gWithout : GroupData) (pre post : List Expense) (E : Expense) (M : String)
    (hg : g.expenses = pre ++ E :: post)
    (hw : gWithout = { g with expenses := pre ++ post })
    (hpayer : ¬ E.payerId = M)
    (hsplits : ∀ s ∈ E.splits, ¬ s.userId = M) :
    totalPaid g M = totalPaid gWithout M
    ∧ totalShare g M = totalShare gWithout M
    ∧ totalSent g M = totalSent gWithout M
    ∧ totalReceived g M = totalReceived gWithout M
    ∧ balanceOf g M = balanceOf gWithout M
    ∧ (calculateGroupBalances g).filter (fun b => b.userId = M)
      = (calculateGroupBalances gWithout).filter (fun b => b.userId = M) := by
  subst hw
  have hpaid : totalPaid g M
      = totalPaid { g with expenses := pre ++ post } M := by
    unfold totalPaid
    rw [hg]
    simp [List.filter_append, List.filter_cons, hpayer]
  have hEsplits : E.splits.filter (fun s => s.userId = M) = [] := by
    rw [List.filter_eq_nil_iff]
    intro s hs
    simpa using hsplits s hs
  have hshare : totalShare g M
      = totalShare { g with expenses := pre ++ post } M := by
    unfold totalShare splitRows
    rw [hg]
    simp [List.filter_append, List.filter_flatten, hEsplits]
  have hsent : totalSent g M
      = totalSent { g with expenses := pre ++ post } M := rfl
  have hrecv : totalReceived g M
      = totalReceived { g with expenses := pre ++ post } M := rfl
  have hbal : balanceOf g M = balanceOf { g with expenses := pre ++ post } M := by
    unfold balanceOf
    rw [hpaid, hshare, hsent, hrecv]
  have hrec : mkUserBalance g M = mkUserBalance { g with expenses := pre ++ post } M := by
    unfold mkUserBalance
    rw [hpaid, hshare, hsent, hrecv, hbal]
  have hmem : (M ∈ userIds g) ↔ (M ∈ userIds { g with expenses := pre ++ post }) := by
    unfold userIds splitRows countedPayments
    rw [mem_firstDedup, mem_firstDedup, hg]
    simp only [List.mem_append, List.mem_map, List.mem_flatten, List.mem_cons]
    constructor
    · rintro (((⟨e, he, hpe⟩ | ⟨s, ⟨l, ⟨e, he, rfl⟩, hsl⟩, hsu⟩) | h) | h)
      · rcases he with he | he | he
        · exact Or.inl (Or.inl (Or.inl ⟨e, Or.inl he, hpe⟩))
        · exact absurd (he ▸ hpe) hpayer
        · exact Or.inl (Or.inl (Or.inl ⟨e, Or.inr he, hpe⟩))
      · rcases he with he | he | he
        · exact Or.inl (Or.inl (Or.inr ⟨s, ⟨e.splits, ⟨e, Or.inl he, rfl⟩, hsl⟩, hsu⟩))
        · exact absurd hsu (hsplits s (he ▸ hsl))
        · exact Or.inl (Or.inl (Or.inr ⟨s, ⟨e.splits, ⟨e, Or.inr he, rfl⟩, hsl⟩, hsu⟩))
      · exact Or.inl (Or.inr h)
      · exact Or.inr h
    · rintro (((⟨e, he, hpe⟩ | ⟨s, ⟨l, ⟨e, he, rfl⟩, hsl⟩, hsu⟩) | h) | h)
      · rcases he with he | he
        · exact Or.inl (Or.inl (Or.inl ⟨e, Or.inl he, hpe⟩))
        · exact Or.inl (Or.inl (Or.inl ⟨e, Or.inr (Or.inr he), hpe⟩))
      · rcases he with he | he
        · exact Or.inl (Or.inl (Or.inr ⟨s, ⟨e.splits, ⟨e, Or.inl he, rfl⟩, hsl⟩, hsu⟩))
        · exact Or.inl (Or.inl (Or.inr ⟨s, ⟨e.splits, ⟨e, Or.inr (Or.inr he), rfl⟩, hsl⟩, hsu⟩))
      · exact Or.inl (Or.inr h)
      · exact Or.inr h
  refine ⟨hpaid, hshare, hsent, hrecv, hbal, ?_⟩
  rw [filter_calculateGroupBalances, filter_calculateGroupBalances, hrec]
  by_cases hM : M ∈ userIds g
  · rw [if_pos hM, if_pos (hmem.mp hM)]
  · rw [if_neg hM, if_neg (fun hx => hM (hmem.mpr hx))]

/-- Witness for C6: user C has no split row in the example expense and is not
its payer. -/
theorem c6_witness :
    (¬ exExpense1.payerId = "C")
    ∧ (∀ s ∈ exExpense1.splits, ¬ s.userId = "C")
    ∧ (totalPaid exG1 "C" = totalPaid exG1E "C"
      ∧ totalShare exG1 "C" = totalShare exG1E "C"
      ∧ totalSent exG1 "C" = totalSent exG1E "C"
      ∧ totalReceived exG1 "C" = totalReceived exG1E "C"
      ∧ balanceOf exG1 "C" = balanceOf exG1E "C"
      ∧ (calculateGroupBalances exG1).filter (fun b => b.userId = "C")
        = (calculateGroupBalances exG1E).filter (fun b => b.userId = "C")) := by
  have h1 : ¬ exExpense1.payerId = "C" := by decide
  have h2 : ∀ s ∈ exExpense1.splits, ¬ s.userId = "C" := by decide
  exact ⟨h1, h2,
    c6_new_member_non_retroactive exG1 exG1E [] [] exExpense1 "C" rfl rfl h1 h2⟩

/-- C5 counterexample: `confirmPayment` carries no status guard, so it moves
even a terminal `REJECTED` payment to `CONFIRMED`. -/
theorem c5_counterexample :
    exPaymentRejected.status = TransactionStatus.REJECTED
    ∧ confirmPaymentUpdate [exPaymentRejected] "p2" "t1"
      = [{ exPaymentRejected with
            status := TransactionStatus.CONFIRMED
            confirmed_at := some "t1" }]
    ∧ ({ exPaymentRejected with
          status := TransactionStatus.CONFIRMED
          confirmed_at := some "t1" } : Payment).status ≠ TransactionStatus.REJECTED := by
  refine ⟨rfl, ?_, by decide⟩
  simp [confirmPaymentUpdate, exPaymentRejected]

/-- C5 amended: `confirmPayment` and `rejectPayment` update the targeted
payment unconditionally — whatever its current status, the row with the given
id is set to `CONFIRMED` (with `confirmed_at`) respectively `REJECTED`, and
rows with other ids are untouched. -/
theorem c5_amended_unconditional_update (payments : List Payment) (pid now : String) :
    (∀ p ∈ confirmPaymentUpdate payments pid now,
      p.id = pid → p.status = TransactionStatus.CONFIRMED ∧ p.confirmed_at = some now)
    ∧ (∀ p ∈ rejectPaymentUpdate payments pid,
      p.id = pid → p.status = TransactionStatus.REJECTED)
    ∧ (∀ p ∈ payments, ¬ p.id = pid →
      p ∈ confirmPaymentUpdate payments pid now ∧ p ∈ rejectPaymentUpdate payments pid)
    ∧ (∀ p ∈ payments, p.id = pid →
      { p with status := TransactionStatus.CONFIRMED, confirmed_at := some now }
          ∈ confirmPaymentUpdate payments pid now
        ∧ { p with status := TransactionStatus.REJECTED }
          ∈ rejectPaymentUpdate payments pid) := by
  refine ⟨?_, ?_, ?_, ?_⟩
  · intro p hp hid
    obtain ⟨q, hq, hqp⟩ := List.mem_map.mp hp
    by_cases h : q.id = pid
    · rw [if_pos h] at hqp
      rw [← hqp]
      exact ⟨rfl, rfl⟩
    · rw [if_neg h] at hqp
      exact absurd (hqp ▸ hid) h
  · intro p hp hid
    obtain ⟨q, hq, hqp⟩ := List.mem_map.mp hp
    by_cases h : q.id = pid
    · rw [if_pos h] at hqp
      rw [← hqp]
    · rw [if_neg h] at hqp
      exact absurd (hqp ▸ hid) h
  · intro p hp hid
    constructor
    · refine List.mem_map.mpr ⟨p, hp, ?_⟩
      rw [if_neg hid]
    · refine List.mem_map.mpr ⟨p, hp, ?_⟩
      rw [if_neg hid]
  · intro p hp hid
    constructor
    · refine List.mem_map.mpr ⟨p, hp, ?_⟩
      rw [if_pos hid]
    · refine List.mem_map.mpr ⟨p, hp, ?_⟩
      rw [if_pos hid]

/-- Witness for the amended C5 at the rejected example payment. -/
theorem c5_witness :
    ({ exPaymentRejected with
        status := TransactionStatus.CONFIRMED
        confirmed_at := some "t1" } ∈ confirmPaymentUpdate [exPaymentRejected] "p2" "t1")
    ∧ ({ exPaymentRejected with status := TransactionStatus.REJECTED }
        ∈ rejectPaymentUpdate [exPaymentRejected] "p2") :=
  (c5_amended_unconditional_update [exPaymentRejected] "p2" "t1").2.2.2
    exPaymentRejected (List.mem_cons_self _ _) rfl

/-- C8: the expense-creation allocation path rejects a non-positive amount
with the positive-amount validation error, rejects an empty participant list
with the no-participants error, and returns shares on every input meeting
both preconditions. -/
theorem c8_allocator_validation (amount : ℚ) (ps : List String) (ctx : String) :
    (amount ≤ 0 → allocateShares amount ps ctx
      = .error { message := POSITIVE_AMOUNT_ERROR, context := ctx })
    ∧ (0 < amount → ps = [] → allocateShares amount ps ctx = .error noParticipantsError)
    ∧ (0 < amount → ¬ ps = [] → ∃ shares, allocateShares amount ps ctx = .ok shares) := by
  refine ⟨?_, ?_, ?_⟩
  · intro h
    unfold allocateShares assertValidAmount
    rw [if_pos h]
    rfl
  · intro h hps
    subst hps
    unfold allocateShares assertValidAmount
    rw [if_neg (not_le.mpr h)]
    rfl
  · intro h hps
    unfold allocateShares assertValidAmount
    rw [if_neg (not_le.mpr h)]
    show ∃ shares, distributeShares amount ps = .ok shares
    unfold distributeShares
    rw [if_neg (fun hh => hps (List.length_eq_zero.mp hh))]
    exact ⟨_, rfl⟩

/-- Witness for C8: a valid input yields shares, a non-positive amount and an
empty participant list are rejected. -/
theorem c8_witness :
    (∃ shares, allocateShares 10 ["A"] "c" = .ok shares)
    ∧ allocateShares (-3) ["A"] "c"
      = .error { message := POSITIVE_AMOUNT_ERROR, context := "c" }
    ∧ allocateShares 10 ([] : List String) "c" = .error noParticipantsError := by
  refine ⟨(c8_allocator_validation 10 ["A"] "c").2.2 (by norm_num) (by decide),
    (c8_allocator_validation (-3) ["A"] "c").1 (by norm_num),
    (c8_allocator_validation 10 [] "c").2.1 (by norm_num) rfl⟩

/-- Every value a record assignment leaves behind is either the new value or
one that was already there. -/
theorem recordSet_values (acc : List (String × ℚ)) (u : String) (v : ℚ) :
    ∀ q ∈ recordSet acc u v, q.2 = v ∨ q ∈ acc := by
  intro q hq
  unfold recordSet at hq
  by_cases h : acc.any (fun p => p.1 = u)
  · rw [if_pos h] at hq
    obtain ⟨r, hr, hrq⟩ := List.mem_map.mp hq
    by_cases h2 : r.1 = u
    · rw [if_pos h2] at hrq
      rw [← hrq]
      exact Or.inl rfl
    · rw [if_neg h2] at hrq
      exact Or.inr (hrq ▸ hr)
  · rw [if_neg h] at hq
    rcases List.mem_append.mp hq with h3 | h3
    · exact Or.inr h3
    · rw [List.mem_singleton] at h3
      rw [h3]
      exact Or.inl rfl

/-- Every share the distribution loop assigns is the base share or the base
share plus one cent. -/
theorem distributeLoop_values (ps : List String) (base : ℤ) :
    ∀ (rem : ℤ) (acc : List (String × ℚ)),
      (∀ q ∈ acc, q.2 = (base : ℚ) / 100 ∨ q.2 = ((base : ℚ) + 1) / 100) →
      ∀ q ∈ distributeLoop ps base rem acc,
        q.2 = (base : ℚ) / 100 ∨ q.2 = ((base : ℚ) + 1) / 100 := by
  induction ps with
  | nil =>
    intro rem acc hacc q hq
    exact hacc q hq
  | cons a t ih =>
    intro rem acc hacc q hq
    simp only [distributeLoop] at hq
    refine ih _ _ ?_ q hq
    intro r hr
    rcases recordSet_values acc a _ r hr with h | h
    · by_cases hrem : 0 < rem
      · right
        rw [h, if_pos hrem]
        push_cast
        ring
      · left
        rw [h, if_neg hrem]
    · exact hacc r h

/-- C9: any two shares produced by `distributeShares` differ by at most one
cent, and 100.00 split among A, B, C hands A the extra cent:
33.34 / 33.33 / 33.33. -/
theorem c9_split_fairness (total : ℚ) (ps : List String)
    (shares : List (String × ℚ)) (h : distributeShares total ps = .ok shares) :
    (∀ s ∈ shares, ∀ r ∈ shares, |s.2 - r.2| ≤ 1 / 100)
    ∧ distributeShares 100 ["A", "B", "C"]
      = .ok [("A", 3334 / 100), ("B", 3333 / 100), ("C", 3333 / 100)] := by
  constructor
  · unfold distributeShares at h
    by_cases hlen : ps.length = 0
    · rw [if_pos hlen] at h
      cases h
    · rw [if_neg hlen] at h
      have hsh : shares = distributeLoop ps ((jsRound (total * 100)).fdiv ps.length)
          (jsRound (total * 100)
            - (jsRound (total * 100)).fdiv ps.length * ps.length) [] := by
        cases h
        rfl
      set base : ℤ := (jsRound (total * 100)).fdiv ps.length with hbase
      have hvals := distributeLoop_values ps base
        (jsRound (total * 100) - base * ps.length) [] (by intro q hq; cases hq)
      rw [← hsh] at hvals
      intro s hs r hr
      rcases hvals s hs with h1 | h1 <;> rcases hvals r hr with h2 | h2 <;>
        rw [h1, h2]
      · simp
      · rw [show (base : ℚ) / 100 - ((base : ℚ) + 1) / 100 = -(1 / 100) by ring]
        rw [abs_neg, abs_of_nonneg (by norm_num)]
      · rw [show ((base : ℚ) + 1) / 100 - (base : ℚ) / 100 = 1 / 100 by ring]
        rw [abs_of_nonneg (by norm_num)]
      · simp
  · have hjr : jsRound ((100 : ℚ) * 100) = 10000 := by norm_num [jsRound]
    have hbase : (jsRound ((100 : ℚ) * 100)).fdiv (["A", "B", "C"].length : ℤ)
        = 3333 := by
      rw [hjr]; decide
    have hlen : ((["A", "B", "C"].length : ℕ) : ℤ) = 3 := by decide
    simp only [distributeShares]
    rw [if_neg (by decide : ¬ (["A", "B", "C"].length = 0)), hbase, hjr, hlen]
    norm_num [distributeLoop]
    simp [recordSet]

/-- Witness for C9 at the 100.00-among-three example. -/
theorem c9_witness :
    distributeShares 100 ["A", "B", "C"]
      = .ok [("A", 3334 / 100), ("B", 3333 / 100), ("C", 3333 / 100)]
    ∧ (∀ s ∈ [("A", (3334 : ℚ) / 100), ("B", 3333 / 100), ("C", 3333 / 100)],
        ∀ r ∈ [("A", (3334 : ℚ) / 100), ("B", 3333 / 100), ("C", 3333 / 100)],
          |s.2 - r.2| ≤ 1 / 100) := by
  have hjr : jsRound ((100 : ℚ) * 100) = 10000 := by norm_num [jsRound]
  have hbase : (jsRound ((100 : ℚ) * 100)).fdiv (["A", "B", "C"].length : ℤ)
      = 3333 := by
    rw [hjr]; decide
  have hlen : ((["A", "B", "C"].length : ℕ) : ℤ) = 3 := by decide
  have heval : distributeShares 100 ["A", "B", "C"]
      = .ok [("A", 3334 / 100), ("B", 3333 / 100), ("C", 3333 / 100)] := by
    simp only [distributeShares]
    rw [if_neg (by decide : ¬ (["A", "B", "C"].length = 0)), hbase, hjr, hlen]
    norm_num [distributeLoop]
    simp [recordSet]
  exact ⟨heval, (c9_split_fairness 100 ["A", "B", "C"] _ heval).1⟩

theorem recordSet_fresh (acc : List (String × ℚ)) (u : String) (v : ℚ)
    (h : ∀ q ∈ acc, ¬ q.1 = u) : recordSet acc u v = acc ++ [(u, v)] := by
  unfold recordSet
  rw [if_neg]
  simp only [List.any_eq_true, decide_eq_true_eq, not_exists]
  intro q
  by_cases hq : q ∈ acc
  · simp [hq, h q hq]
  · simp [hq]

theorem recordSet_keys_preserved (acc : List (String × ℚ)) (u : String) (v : ℚ)
    (k : String) (hk : ∀ q ∈ acc, ¬ q.1 = k) (hu : ¬ u = k) :
    ∀ q ∈ recordSet acc u v, ¬ q.1 = k := by
  intro q hq
  unfold recordSet at hq
  by_cases h : acc.any (fun p => p.1 = u)
  · rw [if_pos h] at hq
    obtain ⟨r, hr, hrq⟩ := List.mem_map.mp hq
    by_cases h2 : r.1 = u
    · rw [if_pos h2] at hrq
      rw [← hrq]
      exact hu
    · rw [if_neg h2] at hrq
      exact hrq ▸ hk r hr
  · rw [if_neg h] at hq
    rcases List.mem_append.mp hq with h3 | h3
    · exact hk q h3
    · rw [List.mem_singleton] at h3
      rw [h3]
      exact hu

theorem recordGet_append_fresh (acc : List (String × ℚ)) (u : String) (v : ℚ)
    (h : ∀ q ∈ acc, ¬ q.1 = u) : recordGet (acc ++ [(u, v)]) u = some v := by
  induction acc with
  | nil => simp [recordGet, List.find?]
  | cons q t ih =>
    have hq : ¬ q.1 = u := h q (List.mem_cons_self q t)
    unfold recordGet at *
    rw [List.cons_append, List.find?_cons_of_neg _ (by simpa using hq)]
    exact ih fun r hr => h r (List.mem_cons_of_mem q hr)

/-- When the last participant appears nowhere earlier and the remainder does
not reach it, the loop assigns it exactly the base share. -/
theorem distributeLoop_lookup_last (ps : List String) (payer : String) (base : ℤ) :
    ∀ (rem : ℤ) (acc : List (String × ℚ)),
      payer ∉ ps → (∀ q ∈ acc, ¬ q.1 = payer) →
      0 ≤ rem → rem ≤ ps.length →
      recordGet (distributeLoop (ps ++ [payer]) base rem acc) payer
        = some ((base : ℚ) / 100) := by
  induction ps with
  | nil =>
    intro rem acc _ hacc h0 hlen
    have hrem : rem = 0 := le_antisymm (by simpa using hlen) h0
    subst hrem
    simp only [List.nil_append, distributeLoop]
    rw [if_neg (by norm_num), recordSet_fresh acc payer _ hacc]
    exact recordGet_append_fresh acc payer _ hacc
  | cons a t ih =>
    intro rem acc hps hacc h0 hlen
    have hap : ¬ a = payer := by
      intro he
      exact hps (he ▸ List.mem_cons_self a t)
    have hpt : payer ∉ t := fun hx => hps (List.mem_cons_of_mem a hx)
    simp only [List.cons_append, distributeLoop]
    by_cases hrem : 0 < rem
    · rw [if_pos hrem]
      exact ih (rem - 1) _ hpt
        (recordSet_keys_preserved acc a _ payer hacc hap)
        (by omega) (by simp at hlen ⊢; omega)
    · rw [if_neg hrem]
      exact ih rem _ hpt
        (recordSet_keys_preserved acc a _ payer hacc hap)
        h0 (by simp at hlen ⊢; omega)

theorem mem_insertUnique (l : List String) (x y : String) :
    y ∈ insertUnique l x ↔ y ∈ l ∨ y = x := by
  unfold insertUnique
  by_cases h : x ∈ l
  · simp only [if_pos h]
    constructor
    · exact Or.inl
    · rintro (hy | rfl)
      · exact hy
      · exact h
  · simp [if_neg h]

/-- C10: the participant list handed to the allocator holds each id once,
appends an absent payer at the end, and such an auto-added payer receives the
base share `floor(cents / n) / 100`, never a remainder cent. -/
theorem c10_auto_added_payer_gets_base_share
    (ps : List String) (payer : String) (total : ℚ) (hp : payer ∉ ps) :
    (ensureParticipants ps payer).Nodup
    ∧ (∀ u, u ∈ ensureParticipants ps payer ↔ ((u ∈ ps ∧ ¬ u = "") ∨ u = payer))
    ∧ ensureParticipants ps payer
      = firstDedup (ps.filter (fun s => ¬ s = "")) ++ [payer]
    ∧ (∀ shares,
        distributeShares total (ensureParticipants ps payer) = .ok shares →
        recordGet shares payer = some
          ((((jsRound (total * 100)).fdiv (ensureParticipants ps payer).length : ℤ) : ℚ)
            / 100)) := by
  have hmemF : payer ∉ ps.filter (fun s => ¬ s = "") :=
    fun h => hp (List.mem_of_mem_filter h)
  have hmemD : payer ∉ firstDedup (ps.filter (fun s => ¬ s = "")) := by
    rw [mem_firstDedup]
    exact hmemF
  have hEq : ensureParticipants ps payer
      = firstDedup (ps.filter (fun s => ¬ s = "")) ++ [payer] := by
    unfold ensureParticipants insertUnique
    rw [if_neg hmemD]
  have hNodup : (ensureParticipants ps payer).Nodup := by
    rw [hEq]
    refine List.Nodup.append (nodup_firstDedup _) (List.nodup_singleton payer) ?_
    intro x hx hxp
    rw [List.mem_singleton] at hxp
    exact hmemD (hxp ▸ hx)
  refine ⟨hNodup, ?_, hEq, ?_⟩
  · intro u
    rw [hEq, List.mem_append, List.mem_singleton, mem_firstDedup, List.mem_filter]
    simp
  · intro shares h
    unfold distributeShares at h
    have hlen0 : ¬ (ensureParticipants ps payer).length = 0 := by
      rw [hEq]
      simp
    rw [if_neg hlen0] at h
    have hsh : shares = distributeLoop (ensureParticipants ps payer)
        ((jsRound (total * 100)).fdiv (ensureParticipants ps payer).length)
        (jsRound (total * 100)
          - (jsRound (total * 100)).fdiv (ensureParticipants ps payer).length
            * (ensureParticipants ps payer).length) [] := by
      cases h
      rfl
    set cents : ℤ := jsRound (total * 100) with hcents
    set n : ℤ := ((ensureParticipants ps payer).length : ℤ) with hn
    have hnpos : (0 : ℤ) < n := by
      rw [hn, hEq]
      simp only [List.length_append, List.length_singleton]
      exact_mod_cast Nat.succ_pos _
    have hfd : cents.fdiv n = cents / n := Int.fdiv_eq_ediv cents (le_of_lt hnpos)
    have hrem_eq : cents - cents.fdiv n * n = cents % n := by
      rw [hfd, Int.emod_def]
      ring
    have hrem0 : 0 ≤ cents - cents.fdiv n * n := by
      rw [hrem_eq]
      exact Int.emod_nonneg cents (ne_of_gt hnpos)
    have hremlt : cents - cents.fdiv n * n < n := by
      rw [hrem_eq]
      exact Int.emod_lt_of_pos cents hnpos
    have hlenF : n = ((firstDedup (ps.filter (fun s => ¬ s = ""))).length : ℤ) + 1 := by
      rw [hn, hEq]
      simp
    rw [hsh, hEq]
    exact distributeLoop_lookup_last _ payer _ _ [] hmemD (by intro q hq; cases hq)
      hrem0
      (by
        have h1 : cents - cents.fdiv n * n + 1 ≤ n := Int.lt_iff_add_one_le.mp hremlt
        rw [hlenF] at h1
        linarith)

/-- Witness for C10: payer A absent from the supplied list, duplicate and
empty entries collapsed. -/
theorem c10_witness :
    ("A" ∉ ["B", "B", ""])
    ∧ ((ensureParticipants ["B", "B", ""] "A").Nodup
      ∧ (∀ u, u ∈ ensureParticipants ["B", "B", ""] "A"
          ↔ ((u ∈ ["B", "B", ""] ∧ ¬ u = "") ∨ u = "A"))
      ∧ ensureParticipants ["B", "B", ""] "A"
        = firstDedup (["B", "B", ""].filter (fun s => ¬ s = "")) ++ ["A"]
      ∧ (∀ shares,
          distributeShares 10 (ensureParticipants ["B", "B", ""] "A") = .ok shares →
          recordGet shares "A" = some
            ((((jsRound ((10 : ℚ) * 100)).fdiv
                (ensureParticipants ["B", "B", ""] "A").length : ℤ) : ℚ) / 100))) := by
  have hp : "A" ∉ ["B", "B", ""] := by decide
  exact ⟨hp, c10_auto_added_payer_gets_base_share ["B", "B", ""] "A" 10 hp⟩

theorem jsRound_intCast (k : ℤ) : jsRound ((k : ℤ) : ℚ) = k := by
  unfold jsRound
  rw [Int.floor_eq_iff]
  constructor
  · linarith
  · linarith

/-- C2 counterexample: with a duplicated participant id the record collapses,
so the shares of 1.00 split over `["A", "A"]` sum to 0.50, not 1.00. -/
theorem c2_counterexample :
    ((0 : ℚ) < 1) ∧ ¬ (["A", "A"] : List String) = []
    ∧ distributeShares 1 ["A", "A"] = .ok [("A", 50 / 100)]
    ∧ ¬ (([("A", (50 : ℚ) / 100)].map Prod.snd).sum = 1) := by
  refine ⟨by norm_num, by decide, ?_, by norm_num⟩
  have hjr : jsRound ((1 : ℚ) * 100) = 100 := by norm_num [jsRound]
  have hbase : (jsRound ((1 : ℚ) * 100)).fdiv (["A", "A"].length : ℤ) = 50 := by
    rw [hjr]; decide
  have hlen : ((["A", "A"].length : ℕ) : ℤ) = 2 := by decide
  simp only [distributeShares]
  rw [if_neg (by decide : ¬ (["A", "A"].length = 0)), hbase, hjr, hlen]
  norm_num [distributeLoop]
  simp [recordSet]

/-- Over a duplicate-free participant list the loop's shares sum to
`(n·base + remainder) / 100`. -/
theorem distributeLoop_snd_sum (ps : List String) (base : ℤ) :
    ∀ (rem : ℤ) (acc : List (String × ℚ)),
      ps.Nodup → (∀ u ∈ ps, ∀ q ∈ acc, ¬ q.1 = u) →
      0 ≤ rem → rem ≤ ps.length →
      ((distributeLoop ps base rem acc).map Prod.snd).sum
        = (acc.map Prod.snd).sum + ps.length * (base : ℚ) / 100 + rem / 100 := by
  induction ps with
  | nil =>
    intro rem acc _ _ h0 hlen
    have hrem : rem = 0 := le_antisymm (by simpa using hlen) h0
    subst hrem
    simp [distributeLoop]
  | cons a t ih =>
    intro rem acc hnd hfresh h0 hlen
    obtain ⟨hat, hndt⟩ := List.nodup_cons.mp hnd
    have hfa : ∀ q ∈ acc, ¬ q.1 = a := hfresh a (List.mem_cons_self a t)
    have hfresh' : ∀ (v : ℚ), ∀ u ∈ t, ∀ q ∈ acc ++ [(a, v)], ¬ q.1 = u := by
      intro v u hu q hq
      rcases List.mem_append.mp hq with hq | hq
      · exact hfresh u (List.mem_cons_of_mem a hu) q hq
      · rw [List.mem_singleton] at hq
        rw [hq]
        show ¬ a = u
        intro he
        exact hat (he ▸ hu)
    simp only [distributeLoop]
    by_cases hrem : 0 < rem
    · rw [if_pos hrem, if_pos hrem, recordSet_fresh acc a _ hfa,
        ih (rem - 1) _ hndt (hfresh' _) (by omega)
          (by simp only [List.length_cons] at hlen; push_cast at hlen ⊢; omega)]
      simp only [List.map_append, List.sum_append, List.map_cons, List.map_nil,
        List.sum_cons, List.sum_nil, List.length_cons]
      push_cast
      ring
    · have hr0 : rem = 0 := le_antisymm (not_lt.mp hrem) h0
      subst hr0
      rw [if_neg hrem, if_neg hrem, recordSet_fresh acc a _ hfa,
        ih 0 _ hndt (hfresh' _) (le_refl 0) (by positivity)]
      simp only [List.map_append, List.sum_append, List.map_cons, List.map_nil,
        List.sum_cons, List.sum_nil, List.length_cons]
      push_cast
      ring

/-- C2 amended: for every positive two-decimal amount and duplicate-free
non-empty participant list, the shares sum to the amount exactly. -/
theorem c2_amended_split_exact (total : ℚ) (ps : List String)
    (_hpos : 0 < total) (hcents : isCents total) (hne : ¬ ps = [])
    (hnd : ps.Nodup) :
    ∃ shares, distributeShares total ps = .ok shares
      ∧ (shares.map Prod.snd).sum = total := by
  have hlen0 : ¬ ps.length = 0 := fun h => hne (List.length_eq_zero.mp h)
  unfold distributeShares
  rw [if_neg hlen0]
  refine ⟨_, rfl, ?_⟩
  set cents : ℤ := jsRound (total * 100) with hcentsdef
  set n : ℤ := (ps.length : ℤ) with hndef
  have hnpos : (0 : ℤ) < n := by
    rw [hndef]
    exact_mod_cast Nat.pos_of_ne_zero hlen0
  have hfd : cents.fdiv n = cents / n := Int.fdiv_eq_ediv cents (le_of_lt hnpos)
  have hrem_eq : cents - cents.fdiv n * n = cents % n := by
    rw [hfd, Int.emod_def]
    ring
  have hrem0 : 0 ≤ cents - cents.fdiv n * n := by
    rw [hrem_eq]
    exact Int.emod_nonneg cents (ne_of_gt hnpos)
  have hremlt : cents - cents.fdiv n * n < n := by
    rw [hrem_eq]
    exact Int.emod_lt_of_pos cents hnpos
  have hremle : cents - cents.fdiv n * n ≤ (ps.length : ℤ) := by
    rw [← hndef]
    linarith
  rw [distributeLoop_snd_sum ps (cents.fdiv n) (cents - cents.fdiv n * n) [] hnd
    (by intro u hu q hq; cases hq) hrem0 hremle]
  obtain ⟨k, hk⟩ := (isCents_iff total).mp hcents
  have htk : total * 100 = (k : ℚ) := by
    rw [hk]
    ring
  have hcents_val : cents = k := by
    rw [hcentsdef, htk]
    exact jsRound_intCast k
  have hqcast : ((cents : ℤ) : ℚ) = total * 100 := by
    rw [hcents_val, htk]
  have hncast : ((n : ℤ) : ℚ) = (ps.length : ℚ) := by
    rw [hndef]
    exact_mod_cast rfl
  have hexp : (ps.length : ℚ) * ((cents.fdiv n : ℤ) : ℚ) / 100
      + ((cents - cents.fdiv n * n : ℤ) : ℚ) / 100 = total := by
    rw [← hncast]
    push_cast
    nlinarith [hqcast]
  rw [List.map_nil, List.sum_nil]
  linarith [hexp]

/-- Witness for the amended C2: 1.00 split over the duplicate-free list
`["A", "B"]`. -/
theorem c2_witness :
    ((0 : ℚ) < 1) ∧ isCents 1 ∧ ¬ (["A", "B"] : List String) = []
    ∧ (["A", "B"] : List String).Nodup
    ∧ ∃ shares, distributeShares 1 ["A", "B"] = .ok shares
      ∧ (shares.map Prod.snd).sum = 1 := by
  refine ⟨by norm_num, by norm_num [isCents], by decide, by decide, ?_⟩
  exact c2_amended_split_exact 1 ["A", "B"] (by norm_num) (by norm_num [isCents])
    (by decide) (by decide)

theorem memberBlocked_true {balances : List UserBalance} {u : String}
    {mb : UserBalance} (hf : balances.find? (fun b => b.userId = u) = some mb)
    (hgt : 1 / 100 < |mb.balance|) : memberBlocked balances u = true := by
  unfold memberBlocked
  rw [hf]
  simpa using hgt

theorem memberBlocked_false {balances : List UserBalance} {u : String}
    (hall : ∀ b ∈ balances, b.userId = u → |b.balance| ≤ 1 / 100) :
    memberBlocked balances u = false := by
  unfold memberBlocked
  cases hf : balances.find? (fun b => b.userId = u) with
  | none => rfl
  | some mb =>
    have hmem : mb ∈ balances := List.mem_of_find?_eq_some hf
    have hpred : mb.userId = u := by simpa using List.find?_some hf
    simpa using not_lt.mpr (hall mb hmem hpred)

/-- C7: `leaveGroup` and `removeMember` fail with the outstanding-balance
conflict error exactly when the affected member's computed balance exceeds
0.01 in absolute value, and remove the member otherwise; `deleteGroup` fails
when any member's balance exceeds 0.01. -/
theorem c7_balance_guards (group : Group) (gdata : GroupData)
    (userId adminId memberId : String) :
    (∀ mb, (calculateGroupBalances gdata).find? (fun b => b.userId = userId)
        = some mb → 1 / 100 < |mb.balance| →
      leaveGroup (some group) gdata userId
        = .error { message := "لا يمكن مغادرة المجموعة قبل تسوية الديون"
                   context := "تعذر مغادرة المجموعة" })
    ∧ ((∀ b ∈ calculateGroupBalances gdata, b.userId = userId →
          |b.balance| ≤ 1 / 100) →
      leaveGroup (some group) gdata userId
        = .ok (some { group with
            members := group.members.filter (fun m => ¬ m = userId) }))
    ∧ (group.created_by = adminId → ¬ memberId = adminId →
      ∀ mb, (calculateGroupBalances gdata).find? (fun b => b.userId = memberId)
          = some mb → 1 / 100 < |mb.balance| →
      removeMember (some group) gdata adminId memberId
        = .error { message := "لا يمكن إزالة عضو لديه ديون غير مسوّاة"
                   context := "إزالة العضو" })
    ∧ (group.created_by = adminId → ¬ memberId = adminId →
      (∀ b ∈ calculateGroupBalances gdata, b.userId = memberId →
          |b.balance| ≤ 1 / 100) →
      removeMember (some group) gdata adminId memberId
        = .ok { group with members := group.members.filter (fun m => ¬ m = memberId) })
    ∧ (group.created_by = adminId →
      (∃ b ∈ calculateGroupBalances gdata, 1 / 100 < |b.balance|) →
      deleteGroup (some group) gdata adminId
        = .error { message := "لا يمكن حذف المجموعة وهناك ديون غير مسوّاة"
                   context := "حذف المجموعة" })
    ∧ (group.created_by = adminId →
      (∀ b ∈ calculateGroupBalances gdata, |b.balance| ≤ 1 / 100) →
      deleteGroup (some group) gdata adminId = .ok ()) := by
  refine ⟨?_, ?_, ?_, ?_, ?_, ?_⟩
  · intro mb hf hgt
    simp [leaveGroup, memberBlocked_true hf hgt]
  · intro hall
    simp [leaveGroup, memberBlocked_false hall]
  · intro hadmin hneq mb hf hgt
    simp [removeMember, hadmin, hneq, memberBlocked_true hf hgt]
  · intro hadmin hneq hall
    simp [removeMember, hadmin, hneq, memberBlocked_false hall]
  · intro hadmin hex
    simp [deleteGroup, hadmin]
    simpa using hex
  · intro hadmin hall
    simp [deleteGroup, hadmin]
    simpa using hall

/-- Witness for C7: B owes 5.00 in `exG1` and cannot leave; in the settled
dataset `exG1C` B leaves, is removable, and the group can be deleted. -/
theorem c7_witness :
    leaveGroup (some exGroup) exG1 "B"
      = .error { message := "لا يمكن مغادرة المجموعة قبل تسوية الديون"
                 context := "تعذر مغادرة المجموعة" }
    ∧ leaveGroup (some exGroup) exG1C "B"
      = .ok (some { exGroup with
          members := exGroup.members.filter (fun m => ¬ m = "B") })
    ∧ removeMember (some exGroup) exG1C "A" "B"
      = .ok { exGroup with members := exGroup.members.filter (fun m => ¬ m = "B") }
    ∧ deleteGroup (some exGroup) exG1C "A" = .ok () := by
  have hfind : (calculateGroupBalances exG1).find? (fun b => b.userId = "B")
      = some { userId := "B", totalPaid := 0, totalShare := 5, totalSent := 0,
               totalReceived := 0, balance := -5 } := by
    simp [calculateGroupBalances, userIds, firstDedup, insertUnique, mkUserBalance,
      balanceOf, totalPaid, totalShare, totalSent, totalReceived, splitRows,
      countedPayments, countedStatus, accumFold, accumulate, exG1, exExpense1,
      exPayment1, List.filter_cons, sortByBalanceDesc, insertDesc, round2]
    norm_num
    simp [List.find?]
  have hallC : ∀ b ∈ calculateGroupBalances exG1C, |b.balance| ≤ 1 / 100 := by
    simp [calculateGroupBalances, userIds, firstDedup, insertUnique, mkUserBalance,
      balanceOf, totalPaid, totalShare, totalSent, totalReceived, splitRows,
      countedPayments, countedStatus, accumFold, accumulate, exG1C, exExpense1,
      exPayment1, List.filter_cons, sortByBalanceDesc, insertDesc, round2]
    norm_num
  have hallC' : ∀ b ∈ calculateGroupBalances exG1C, b.userId = "B" →
      |b.balance| ≤ 1 / 100 := fun b hb _ => hallC b hb
  exact ⟨(c7_balance_guards exGroup exG1 "B" "A" "B").1 _ hfind (by norm_num),
    (c7_balance_guards exGroup exG1C "B" "A" "B").2.1 hallC',
    (c7_balance_guards exGroup exG1C "B" "A" "B").2.2.2.1 rfl (by decide) hallC',
    (c7_balance_guards exGroup exG1C "B" "A" "B").2.2.2.2.2 rfl hallC⟩

theorem sentBy_cons (u : String) (l : DebtLine) (T : List DebtLine) :
    sentBy u (l :: T) = (if l.fromId = u then l.amount else 0) + sentBy u T := by
  by_cases h : l.fromId = u <;> simp [sentBy, List.filter_cons, h]

theorem recvBy_cons (u : String) (l : DebtLine) (T : List DebtLine) :
    recvBy u (l :: T) = (if l.toId = u then l.amount else 0) + recvBy u T := by
  by_cases h : l.toId = u <;> simp [recvBy, List.filter_cons, h]

theorem totalAmt_cons (l : DebtLine) (T : List DebtLine) :
    totalAmt (l :: T) = l.amount + totalAmt T := by
  simp [totalAmt]

/-- One sweep step in which both parties advance. -/
theorem sweep_step_both (d c : Party) (ds cs : List Party)
    (hd : d.amount - min d.amount c.amount ≤ 1 / 100)
    (hc : c.amount - min d.amount c.amount ≤ 1 / 100) :
    sweep (d :: ds) (c :: cs)
      = (if 1 / 100 < min d.amount c.amount
          then [{ fromId := d.id, toId := c.id
                  amount := round2 (min d.amount c.amount) }]
          else []) ++ sweep ds cs := by
  simp only [sweep]
  rw [if_pos hd, if_pos hc]

/-- One sweep step in which only the debtor advances. -/
theorem sweep_step_debtor (d c : Party) (ds cs : List Party)
    (hd : d.amount - min d.amount c.amount ≤ 1 / 100)
    (hc : ¬ c.amount - min d.amount c.amount ≤ 1 / 100) :
    sweep (d :: ds) (c :: cs)
      = (if 1 / 100 < min d.amount c.amount
          then [{ fromId := d.id, toId := c.id
                  amount := round2 (min d.amount c.amount) }]
          else [])
        ++ sweep ds ({ id := c.id, amount := c.amount - min d.amount c.amount } :: cs) := by
  simp only [sweep]
  rw [if_pos hd, if_neg hc]

/-- One sweep step in which only the creditor advances. -/
theorem sweep_step_creditor (d c : Party) (ds cs : List Party)
    (hd : ¬ d.amount - min d.amount c.amount ≤ 1 / 100) :
    sweep (d :: ds) (c :: cs)
      = (if 1 / 100 < min d.amount c.amount
          then [{ fromId := d.id, toId := c.id
                  amount := round2 (min d.amount c.amount) }]
          else [])
        ++ sweep ({ id := d.id, amount := d.amount - min d.amount c.amount } :: ds) cs := by
  simp only [sweep]
  rw [if_neg hd]

/-- Every line the sweep emits points from a listed debtor to a listed
creditor. -/
theorem sweep_line_ids (ds cs : List Party) :
    ∀ l ∈ sweep ds cs, l.fromId ∈ ds.map Party.id ∧ l.toId ∈ cs.map Party.id := by
  induction ds, cs using sweep.induct with
  | case1 cs =>
    intro l hl
    simp only [sweep] at hl
    cases hl
  | case2 d ds =>
    intro l hl
    simp only [sweep] at hl
    cases hl
  | case3 d ds c cs t hd hc ih =>
    intro l hl
    rw [sweep_step_both d c ds cs hd hc] at hl
    rcases List.mem_append.mp hl with hl | hl
    · rcases List.mem_ite_nil_right.mp hl with ⟨_, hl⟩
      rw [List.mem_singleton] at hl
      subst hl
      exact ⟨List.mem_cons_self _ _, List.mem_cons_self _ _⟩
    · obtain ⟨h1, h2⟩ := ih l hl
      exact ⟨List.mem_cons_of_mem _ h1, List.mem_cons_of_mem _ h2⟩
  | case4 d ds c cs t hd hc ih =>
    intro l hl
    rw [sweep_step_debtor d c ds cs hd hc] at hl
    rcases List.mem_append.mp hl with hl | hl
    · rcases List.mem_ite_nil_right.mp hl with ⟨_, hl⟩
      rw [List.mem_singleton] at hl
      subst hl
      exact ⟨List.mem_cons_self _ _, List.mem_cons_self _ _⟩
    · obtain ⟨h1, h2⟩ := ih l hl
      refine ⟨List.mem_cons_of_mem _ h1, ?_⟩
      simp only [List.map_cons] at h2 ⊢
      exact h2
  | case5 d ds c cs t hd ih =>
    intro l hl
    rw [sweep_step_creditor d c ds cs hd] at hl
    rcases List.mem_append.mp hl with hl | hl
    · rcases List.mem_ite_nil_right.mp hl with ⟨_, hl⟩
      rw [List.mem_singleton] at hl
      subst hl
      exact ⟨List.mem_cons_self _ _, List.mem_cons_self _ _⟩
    · obtain ⟨h1, h2⟩ := ih l hl
      refine ⟨?_, List.mem_cons_of_mem _ h2⟩
      simp only [List.map_cons] at h1 ⊢
      exact h1

theorem nodup_heads (d c : Party) (ds cs : List Party)
    (hnd : (((d :: ds) ++ c :: cs).map Party.id).Nodup) :
    d.id ∉ ds.map Party.id ∧ ¬ d.id = c.id ∧ d.id ∉ cs.map Party.id
    ∧ c.id ∉ ds.map Party.id ∧ c.id ∉ cs.map Party.id
    ∧ ((ds ++ cs).map Party.id).Nodup
    ∧ ((ds ++ c :: cs).map Party.id).Nodup
    ∧ (((d :: ds) ++ cs).map Party.id).Nodup := by
  simp only [List.cons_append, List.map_cons, List.map_append] at hnd
  obtain ⟨hd1, hnd1⟩ := List.nodup_cons.mp hnd
  simp only [List.mem_append, List.mem_cons] at hd1
  push_neg at hd1
  obtain ⟨hdds, hdc, hdcs⟩ := hd1
  rw [List.nodup_append] at hnd1
  obtain ⟨hdsN, hccsN, hdisj⟩ := hnd1
  obtain ⟨hccs, hcsN⟩ := List.nodup_cons.mp hccsN
  have hcds : c.id ∉ ds.map Party.id := by
    intro hx
    exact hdisj hx (List.mem_cons_self _ _)
  have hdisj' : ∀ a ∈ ds.map Party.id, a ∉ cs.map Party.id := by
    intro a ha hb
    exact hdisj ha (List.mem_cons_of_mem _ hb)
  refine ⟨hdds, hdc, hdcs, hcds, hccs, ?_, ?_, ?_⟩
  · rw [List.map_append, List.nodup_append]
    exact ⟨hdsN, hcsN, fun a ha hb => hdisj' a ha hb⟩
  · rw [List.map_append, List.nodup_append]
    refine ⟨hdsN, hccsN, ?_⟩
    intro a ha hb
    rcases List.mem_cons.mp hb with hb | hb
    · exact hcds (hb ▸ ha)
    · exact hdisj' a ha hb
  · simp only [List.cons_append, List.map_cons]
    rw [List.nodup_cons]
    constructor
    · rw [List.map_append, List.mem_append]
      rintro (hx | hx)
      · exact hdds hx
      · exact hdcs hx
    · rw [List.map_append, List.nodup_append]
      exact ⟨hdsN, hcsN, fun a ha hb => hdisj' a ha hb⟩


/-- Per-party accounting of the sweep: nobody sends more than their debt,
nobody receives more than their credit, and parties outside the respective
list send or receive nothing. -/
theorem sweep_party_bounds (ds cs : List Party) :
    (∀ x ∈ ds, 1 / 100 < x.amount) → (∀ x ∈ cs, 1 / 100 < x.amount) →
    (∀ x ∈ ds ++ cs, isCents x.amount) →
    ((ds ++ cs).map Party.id).Nodup →
    (∀ x ∈ ds, sentBy x.id (sweep ds cs) ≤ x.amount)
    ∧ (∀ x ∈ cs, recvBy x.id (sweep ds cs) ≤ x.amount)
    ∧ (∀ u, u ∉ ds.map Party.id → sentBy u (sweep ds cs) = 0)
    ∧ (∀ u, u ∉ cs.map Party.id → recvBy u (sweep ds cs) = 0) := by
  induction ds, cs using sweep.induct with
  | case1 cs =>
    intro _ hcpos _ _
    simp only [sweep]
    refine ⟨fun x hx => absurd hx (List.not_mem_nil x), ?_, ?_, ?_⟩
    · intro x hx
      have h0 : recvBy x.id ([] : List DebtLine) = 0 := by simp [recvBy]
      rw [h0]
      exact le_of_lt (lt_trans (show (0 : ℚ) < 1 / 100 by norm_num) (hcpos x hx))
    · intro u _
      simp [sentBy]
    · intro u _
      simp [recvBy]
  | case2 d ds =>
    intro hdpos _ _ _
    simp only [sweep]
    refine ⟨?_, fun x hx => absurd hx (List.not_mem_nil x), ?_, ?_⟩
    · intro x hx
      have h0 : sentBy x.id ([] : List DebtLine) = 0 := by simp [sentBy]
      rw [h0]
      exact le_of_lt (lt_trans (show (0 : ℚ) < 1 / 100 by norm_num) (hdpos x hx))
    · intro u _
      simp [sentBy]
    · intro u _
      simp [recvBy]
  | case3 d ds c cs t hd hc ih =>
    intro hdpos hcpos hcents hnd
    obtain ⟨hdds, hdc, hdcs, hcds, hccs, hndR, _, _⟩ := nodup_heads d c ds cs hnd
    have hdp := hdpos d (List.mem_cons_self d ds)
    have hcp := hcpos c (List.mem_cons_self c cs)
    have htpos : 1 / 100 < min d.amount c.amount := lt_min hdp hcp
    have htc : isCents (min d.amount c.amount) :=
      isCents_min (hcents d (by simp)) (hcents c (by simp))
    have hstep : sweep (d :: ds) (c :: cs)
        = { fromId := d.id, toId := c.id, amount := min d.amount c.amount }
          :: sweep ds cs := by
      rw [sweep_step_both d c ds cs hd hc, if_pos htpos, round2_cents htc]
      rfl
    obtain ⟨ihS, ihR, ihS0, ihR0⟩ := ih
      (fun x hx => hdpos x (List.mem_cons_of_mem d hx))
      (fun x hx => hcpos x (List.mem_cons_of_mem c hx))
      (fun x hx => hcents x (by
        rcases List.mem_append.mp hx with h | h
        · exact List.mem_append.mpr (Or.inl (List.mem_cons_of_mem d h))
        · exact List.mem_append.mpr (Or.inr (List.mem_cons_of_mem c h))))
      hndR
    rw [hstep]
    refine ⟨?_, ?_, ?_, ?_⟩
    · intro x hx
      rcases List.mem_cons.mp hx with heq | hmem
      · rw [heq, sentBy_cons, if_pos rfl, ihS0 d.id hdds]
        simp only [zero_add, add_zero]; exact min_le_left d.amount c.amount
      · rw [sentBy_cons]
        have hne : ¬ d.id = x.id :=
          fun he => hdds (he ▸ List.mem_map.mpr ⟨x, hmem, rfl⟩)
        rw [if_neg hne, zero_add]
        exact ihS x hmem
    · intro x hx
      rcases List.mem_cons.mp hx with heq | hmem
      · rw [heq, recvBy_cons, if_pos rfl, ihR0 c.id hccs]
        simp only [zero_add, add_zero]; exact min_le_right d.amount c.amount
      · rw [recvBy_cons]
        have hne : ¬ c.id = x.id :=
          fun he => hccs (he ▸ List.mem_map.mpr ⟨x, hmem, rfl⟩)
        rw [if_neg hne, zero_add]
        exact ihR x hmem
    · intro u hu
      simp only [List.map_cons, List.mem_cons] at hu
      push_neg at hu
      rw [sentBy_cons, if_neg (fun he => hu.1 he.symm), zero_add]
      exact ihS0 u hu.2
    · intro u hu
      simp only [List.map_cons, List.mem_cons] at hu
      push_neg at hu
      rw [recvBy_cons, if_neg (fun he => hu.1 he.symm), zero_add]
      exact ihR0 u hu.2
  | case4 d ds c cs t hd hc ih =>
    intro hdpos hcpos hcents hnd
    obtain ⟨hdds, hdc, hdcs, hcds, hccs, _, hndR, _⟩ := nodup_heads d c ds cs hnd
    have hdp := hdpos d (List.mem_cons_self d ds)
    have hcp := hcpos c (List.mem_cons_self c cs)
    have htpos : 1 / 100 < min d.amount c.amount := lt_min hdp hcp
    have htc : isCents (min d.amount c.amount) :=
      isCents_min (hcents d (by simp)) (hcents c (by simp))
    have hstep : sweep (d :: ds) (c :: cs)
        = { fromId := d.id, toId := c.id, amount := min d.amount c.amount }
          :: sweep ds ({ id := c.id, amount := c.amount - min d.amount c.amount } :: cs) := by
      rw [sweep_step_debtor d c ds cs hd hc, if_pos htpos, round2_cents htc]
      rfl
    have hcp' : 1 / 100 < c.amount - min d.amount c.amount := not_le.mp hc
    obtain ⟨ihS, ihR, ihS0, ihR0⟩ := ih
      (fun x hx => hdpos x (List.mem_cons_of_mem d hx))
      (by
        intro x hx
        rcases List.mem_cons.mp hx with heq | hmem
        · rw [heq]
          exact hcp'
        · exact hcpos x (List.mem_cons_of_mem c hmem))
      (by
        intro x hx
        rcases List.mem_append.mp hx with h | h
        · exact hcents x (List.mem_append.mpr (Or.inl (List.mem_cons_of_mem d h)))
        · rcases List.mem_cons.mp h with heq | hmem
          · rw [heq]
            exact isCents_sub (hcents c (by simp)) htc
          · exact hcents x (List.mem_append.mpr (Or.inr (List.mem_cons_of_mem c hmem))))
      (by
        have h := hndR
        simp only [List.map_append, List.map_cons] at h
        simp only [List.map_append, List.map_cons]
        exact h)
    rw [hstep]
    refine ⟨?_, ?_, ?_, ?_⟩
    · intro x hx
      rcases List.mem_cons.mp hx with heq | hmem
      · rw [heq, sentBy_cons, if_pos rfl, ihS0 d.id hdds]
        simp only [zero_add, add_zero]; exact min_le_left d.amount c.amount
      · rw [sentBy_cons]
        have hne : ¬ d.id = x.id :=
          fun he => hdds (he ▸ List.mem_map.mpr ⟨x, hmem, rfl⟩)
        rw [if_neg hne, zero_add]
        exact ihS x hmem
    · intro x hx
      rcases List.mem_cons.mp hx with heq | hmem
      · rw [heq, recvBy_cons, if_pos rfl]
        have hxr := ihR { id := c.id, amount := c.amount - min d.amount c.amount }
          (List.mem_cons_self _ _)
        simp only at hxr
        linarith
      · rw [recvBy_cons]
        have hne : ¬ c.id = x.id :=
          fun he => hccs (he ▸ List.mem_map.mpr ⟨x, hmem, rfl⟩)
        rw [if_neg hne, zero_add]
        exact ihR x (List.mem_cons_of_mem _ hmem)
    · intro u hu
      simp only [List.map_cons, List.mem_cons] at hu
      push_neg at hu
      rw [sentBy_cons, if_neg (fun he => hu.1 he.symm), zero_add]
      exact ihS0 u hu.2
    · intro u hu
      simp only [List.map_cons, List.mem_cons] at hu
      push_neg at hu
      rw [recvBy_cons, if_neg (fun he => hu.1 he.symm), zero_add]
      refine ihR0 u ?_
      simp only [List.map_cons, List.mem_cons]
      push_neg
      exact ⟨hu.1, hu.2⟩
  | case5 d ds c cs t hd ih =>
    intro hdpos hcpos hcents hnd
    obtain ⟨hdds, hdc, hdcs, hcds, hccs, _, _, hndR⟩ := nodup_heads d c ds cs hnd
    have hdp := hdpos d (List.mem_cons_self d ds)
    have hcp := hcpos c (List.mem_cons_self c cs)
    have htpos : 1 / 100 < min d.amount c.amount := lt_min hdp hcp
    have htc : isCents (min d.amount c.amount) :=
      isCents_min (hcents d (by simp)) (hcents c (by simp))
    have hstep : sweep (d :: ds) (c :: cs)
        = { fromId := d.id, toId := c.id, amount := min d.amount c.amount }
          :: sweep ({ id := d.id, amount := d.amount - min d.amount c.amount } :: ds) cs := by
      rw [sweep_step_creditor d c ds cs hd, if_pos htpos, round2_cents htc]
      rfl
    have hdp' : 1 / 100 < d.amount - min d.amount c.amount := not_le.mp hd
    obtain ⟨ihS, ihR, ihS0, ihR0⟩ := ih
      (by
        intro x hx
        rcases List.mem_cons.mp hx with heq | hmem
        · rw [heq]
          exact hdp'
        · exact hdpos x (List.mem_cons_of_mem d hmem))
      (fun x hx => hcpos x (List.mem_cons_of_mem c hx))
      (by
        intro x hx
        rcases List.mem_append.mp hx with h | h
        · rcases List.mem_cons.mp h with heq | hmem
          · rw [heq]
            exact isCents_sub (hcents d (by simp)) htc
          · exact hcents x (List.mem_append.mpr (Or.inl (List.mem_cons_of_mem d hmem)))
        · exact hcents x (List.mem_append.mpr (Or.inr (List.mem_cons_of_mem c h))))
      hndR
    rw [hstep]
    refine ⟨?_, ?_, ?_, ?_⟩
    · intro x hx
      rcases List.mem_cons.mp hx with heq | hmem
      · rw [heq, sentBy_cons, if_pos rfl]
        have hxs := ihS { id := d.id, amount := d.amount - min d.amount c.amount }
          (List.mem_cons_self _ _)
        simp only at hxs
        linarith
      · rw [sentBy_cons]
        have hne : ¬ d.id = x.id :=
          fun he => hdds (he ▸ List.mem_map.mpr ⟨x, hmem, rfl⟩)
        rw [if_neg hne, zero_add]
        exact ihS x (List.mem_cons_of_mem _ hmem)
    · intro x hx
      rcases List.mem_cons.mp hx with heq | hmem
      · rw [heq, recvBy_cons, if_pos rfl, ihR0 c.id hccs]
        simp only [zero_add, add_zero]; exact min_le_right d.amount c.amount
      · rw [recvBy_cons]
        have hne : ¬ c.id = x.id :=
          fun he => hccs (he ▸ List.mem_map.mpr ⟨x, hmem, rfl⟩)
        rw [if_neg hne, zero_add]
        exact ihR x hmem
    · intro u hu
      simp only [List.map_cons, List.mem_cons] at hu
      push_neg at hu
      rw [sentBy_cons, if_neg (fun he => hu.1 he.symm), zero_add]
      refine ihS0 u ?_
      simp only [List.map_cons, List.mem_cons]
      push_neg
      exact ⟨hu.1, hu.2⟩
    · intro u hu
      simp only [List.map_cons, List.mem_cons] at hu
      push_neg at hu
      rw [recvBy_cons, if_neg (fun he => hu.1 he.symm), zero_add]
      exact ihR0 u hu.2

theorem sumAmt_cons (x : Party) (l : List Party) :
    sumAmt (x :: l) = x.amount + sumAmt l := by
  simp [sumAmt]

theorem sumAmt_nonneg (l : List Party) (h : ∀ x ∈ l, 1 / 100 < x.amount) :
    0 ≤ sumAmt l := by
  apply List.sum_nonneg
  intro x hx
  obtain ⟨y, hy, rfl⟩ := List.mem_map.mp hx
  exact le_of_lt (lt_trans (by norm_num) (h y hy))

theorem max_shift_le (D b : ℚ) (hb : 0 ≤ b) {x : ℚ} (hx : x ≤ D + b) :
    max x 0 ≤ max D 0 + b := by
  apply max_le
  · exact le_trans hx (by linarith [le_max_left D 0])
  · linarith [le_max_right D 0]

/-- Total accounting of the sweep: the emitted total never exceeds either
side's total, and the untransferred residue on each side is bounded by one
epsilon per list entry plus the imbalance of the two sides. -/
theorem sweep_total_bound (ds cs : List Party) :
    (∀ x ∈ ds, 1 / 100 < x.amount) → (∀ x ∈ cs, 1 / 100 < x.amount) →
    (∀ x ∈ ds ++ cs, isCents x.amount) →
    totalAmt (sweep ds cs) ≤ sumAmt ds
    ∧ totalAmt (sweep ds cs) ≤ sumAmt cs
    ∧ sumAmt ds - totalAmt (sweep ds cs)
        ≤ ((ds.length + cs.length : ℕ) : ℚ) * (1 / 100)
          + max (sumAmt ds - sumAmt cs) 0
    ∧ sumAmt cs - totalAmt (sweep ds cs)
        ≤ ((ds.length + cs.length : ℕ) : ℚ) * (1 / 100)
          + max (sumAmt cs - sumAmt ds) 0 := by
  induction ds, cs using sweep.induct with
  | case1 cs =>
    intro _ hcpos _
    simp only [sweep]
    have h0 : totalAmt ([] : List DebtLine) = 0 := by simp [totalAmt]
    have hs0 : sumAmt ([] : List Party) = 0 := by simp [sumAmt]
    have hcnn := sumAmt_nonneg cs hcpos
    have hnn : (0 : ℚ) ≤ ((([] : List Party).length + cs.length : ℕ) : ℚ) * (1 / 100) := by
      positivity
    refine ⟨by rw [h0, hs0], by rw [h0]; exact hcnn, ?_, ?_⟩
    · rw [h0, hs0]
      have := le_max_right (0 - sumAmt cs) (0 : ℚ)
      linarith
    · rw [h0, hs0]
      have := le_max_left (sumAmt cs - 0) (0 : ℚ)
      linarith
  | case2 d ds =>
    intro hdpos _ _
    simp only [sweep]
    have h0 : totalAmt ([] : List DebtLine) = 0 := by simp [totalAmt]
    have hs0 : sumAmt ([] : List Party) = 0 := by simp [sumAmt]
    have hdnn := sumAmt_nonneg (d :: ds) hdpos
    have hnn : (0 : ℚ) ≤ (((d :: ds).length + ([] : List Party).length : ℕ) : ℚ)
        * (1 / 100) := by positivity
    refine ⟨by rw [h0]; exact hdnn, by rw [h0, hs0], ?_, ?_⟩
    · rw [h0, hs0]
      have := le_max_left (sumAmt (d :: ds) - 0) (0 : ℚ)
      linarith
    · rw [h0, hs0]
      have := le_max_right (0 - sumAmt (d :: ds)) (0 : ℚ)
      linarith
  | case3 d ds c cs t hd hc ih =>
    intro hdpos hcpos hcents
    unfold t at hd hc ih
    have hdp := hdpos d (List.mem_cons_self d ds)
    have hcp := hcpos c (List.mem_cons_self c cs)
    have htpos : 1 / 100 < min d.amount c.amount := lt_min hdp hcp
    have htc : isCents (min d.amount c.amount) :=
      isCents_min (hcents d (by simp)) (hcents c (by simp))
    have hstep : sweep (d :: ds) (c :: cs)
        = { fromId := d.id, toId := c.id, amount := min d.amount c.amount }
          :: sweep ds cs := by
      rw [sweep_step_both d c ds cs hd hc, if_pos htpos, round2_cents htc]
      rfl
    obtain ⟨ih1, ih2, ih3, ih4⟩ := ih
      (fun x hx => hdpos x (List.mem_cons_of_mem d hx))
      (fun x hx => hcpos x (List.mem_cons_of_mem c hx))
      (fun x hx => hcents x (by
        rcases List.mem_append.mp hx with h | h
        · exact List.mem_append.mpr (Or.inl (List.mem_cons_of_mem d h))
        · exact List.mem_append.mpr (Or.inr (List.mem_cons_of_mem c h))))
    rw [hstep, totalAmt_cons, sumAmt_cons, sumAmt_cons]
    have hta : min d.amount c.amount ≤ d.amount := min_le_left _ _
    have htb : min d.amount c.amount ≤ c.amount := min_le_right _ _
    have ha1 : d.amount - min d.amount c.amount ≤ 1 / 100 := hd
    have hb1 : c.amount - min d.amount c.amount ≤ 1 / 100 := hc
    refine ⟨by linarith, by linarith, ?_, ?_⟩
    · have hmax : max (sumAmt ds - sumAmt cs) 0
          ≤ max ((d.amount + sumAmt ds) - (c.amount + sumAmt cs)) 0
            + (c.amount - min d.amount c.amount) := by
        apply max_shift_le _ _ (by linarith)
        linarith
      simp only [List.length_cons]
      push_cast
      push_cast at ih3
      linarith
    · have hmax : max (sumAmt cs - sumAmt ds) 0
          ≤ max ((c.amount + sumAmt cs) - (d.amount + sumAmt ds)) 0
            + (d.amount - min d.amount c.amount) := by
        apply max_shift_le _ _ (by linarith)
        linarith
      simp only [List.length_cons]
      push_cast
      push_cast at ih4
      linarith
  | case4 d ds c cs t hd hc ih =>
    intro hdpos hcpos hcents
    unfold t at hd hc ih
    have hdp := hdpos d (List.mem_cons_self d ds)
    have hcp := hcpos c (List.mem_cons_self c cs)
    have htpos : 1 / 100 < min d.amount c.amount := lt_min hdp hcp
    have htc : isCents (min d.amount c.amount) :=
      isCents_min (hcents d (by simp)) (hcents c (by simp))
    have hstep : sweep (d :: ds) (c :: cs)
        = { fromId := d.id, toId := c.id, amount := min d.amount c.amount }
          :: sweep ds ({ id := c.id, amount := c.amount - min d.amount c.amount } :: cs) := by
      rw [sweep_step_debtor d c ds cs hd hc, if_pos htpos, round2_cents htc]
      rfl
    have ht : min d.amount c.amount = d.amount := by
      rcases min_choice d.amount c.amount with h | h
      · exact h
      · exfalso
        rw [h] at hc
        exact hc (by norm_num)
    have hcp' : 1 / 100 < c.amount - min d.amount c.amount := not_le.mp hc
    obtain ⟨ih1, ih2, ih3, ih4⟩ := ih
      (fun x hx => hdpos x (List.mem_cons_of_mem d hx))
      (by
        intro x hx
        rcases List.mem_cons.mp hx with heq | hmem
        · rw [heq]
          exact hcp'
        · exact hcpos x (List.mem_cons_of_mem c hmem))
      (by
        intro x hx
        rcases List.mem_append.mp hx with h | h
        · exact hcents x (List.mem_append.mpr (Or.inl (List.mem_cons_of_mem d h)))
        · rcases List.mem_cons.mp h with heq | hmem
          · rw [heq]
            exact isCents_sub (hcents c (by simp)) htc
          · exact hcents x (List.mem_append.mpr (Or.inr (List.mem_cons_of_mem c hmem))))
    rw [hstep, totalAmt_cons, sumAmt_cons, sumAmt_cons]
    rw [sumAmt_cons] at ih2 ih3 ih4
    simp only at ih2 ih3 ih4
    rw [ht] at ih1 ih2 ih3 ih4 ⊢
    refine ⟨by linarith, by linarith, ?_, ?_⟩
    · simp only [List.length_cons] at ih3 ⊢
      push_cast
      push_cast at ih3
      have harg : sumAmt ds - (c.amount - d.amount + sumAmt cs)
          = (d.amount + sumAmt ds) - (c.amount + sumAmt cs) := by ring
      rw [harg] at ih3
      linarith
    · simp only [List.length_cons] at ih4 ⊢
      push_cast
      push_cast at ih4
      have harg : c.amount - d.amount + sumAmt cs - sumAmt ds
          = (c.amount + sumAmt cs) - (d.amount + sumAmt ds) := by ring
      rw [harg] at ih4
      linarith
  | case5 d ds c cs t hd ih =>
    intro hdpos hcpos hcents
    unfold t at hd ih
    have hdp := hdpos d (List.mem_cons_self d ds)
    have hcp := hcpos c (List.mem_cons_self c cs)
    have htpos : 1 / 100 < min d.amount c.amount := lt_min hdp hcp
    have htc : isCents (min d.amount c.amount) :=
      isCents_min (hcents d (by simp)) (hcents c (by simp))
    have hstep : sweep (d :: ds) (c :: cs)
        = { fromId := d.id, toId := c.id, amount := min d.amount c.amount }
          :: sweep ({ id := d.id, amount := d.amount - min d.amount c.amount } :: ds) cs := by
      rw [sweep_step_creditor d c ds cs hd, if_pos htpos, round2_cents htc]
      rfl
    have ht : min d.amount c.amount = c.amount := by
      rcases min_choice d.amount c.amount with h | h
      · exfalso
        rw [h] at hd
        exact hd (by norm_num)
      · exact h
    have hdp' : 1 / 100 < d.amount - min d.amount c.amount := not_le.mp hd
    obtain ⟨ih1, ih2, ih3, ih4⟩ := ih
      (by
        intro x hx
        rcases List.mem_cons.mp hx with heq | hmem
        · rw [heq]
          exact hdp'
        · exact hdpos x (List.mem_cons_of_mem d hmem))
      (fun x hx => hcpos x (List.mem_cons_of_mem c hx))
      (by
        intro x hx
        rcases List.mem_append.mp hx with h | h
        · rcases List.mem_cons.mp h with heq | hmem
          · rw [heq]
            exact isCents_sub (hcents d (by simp)) htc
          · exact hcents x (List.mem_append.mpr (Or.inl (List.mem_cons_of_mem d hmem)))
        · exact hcents x (List.mem_append.mpr (Or.inr (List.mem_cons_of_mem c h))))
    rw [hstep, totalAmt_cons, sumAmt_cons, sumAmt_cons]
    rw [sumAmt_cons] at ih1 ih3 ih4
    simp only at ih1 ih3 ih4
    rw [ht] at ih1 ih2 ih3 ih4 ⊢
    refine ⟨by linarith, by linarith, ?_, ?_⟩
    · simp only [List.length_cons] at ih3 ⊢
      push_cast
      push_cast at ih3
      have harg : d.amount - c.amount + sumAmt ds - sumAmt cs
          = (d.amount + sumAmt ds) - (c.amount + sumAmt cs) := by ring
      rw [harg] at ih3
      linarith
    · simp only [List.length_cons] at ih4 ⊢
      push_cast
      push_cast at ih4
      have harg : sumAmt cs - (d.amount - c.amount + sumAmt ds)
          = (c.amount + sumAmt cs) - (d.amount + sumAmt ds) := by ring
      rw [harg] at ih4
      linarith

theorem list_sum_neg (l : List α) (f : α → ℚ) :
    (l.map (fun x => -(f x))).sum = -((l.map f).sum) := by
  induction l with
  | nil => simp
  | cons a t ih => simp [ih]; ring

theorem list_abs_sum_le (l : List α) (f : α → ℚ) (c : ℚ)
    (h : ∀ x ∈ l, |f x| ≤ c) : |(l.map f).sum| ≤ (l.length : ℚ) * c := by
  induction l with
  | nil => simp
  | cons a t ih =>
    have ha := h a (List.mem_cons_self a t)
    have hc0 : 0 ≤ c := le_trans (abs_nonneg _) ha
    have iht := ih fun x hx => h x (List.mem_cons_of_mem a hx)
    simp only [List.map_cons, List.sum_cons, List.length_cons]
    calc |f a + (t.map f).sum| ≤ |f a| + |(t.map f).sum| := abs_add _ _
      _ ≤ c + (t.length : ℚ) * c := by linarith
      _ = ((t.length + 1 : ℕ) : ℚ) * c := by push_cast; ring

/-- Three-way split of a sum over balances: strict debtors, strict creditors
and near-zero entries. -/
theorem balance_partition (l : List UserBalance) (f : UserBalance → ℚ) :
    (l.map f).sum
      = ((l.filter (fun b => b.balance < -(1 / 100))).map f).sum
        + ((l.filter (fun b => 1 / 100 < b.balance)).map f).sum
        + ((l.filter (fun b => |b.balance| ≤ 1 / 100)).map f).sum := by
  induction l with
  | nil => simp
  | cons a t ih =>
    by_cases h1 : a.balance < -(1 / 100)
    · have h2 : ¬ 1 / 100 < a.balance := by linarith
      have h3 : ¬ |a.balance| ≤ 1 / 100 := by
        rw [abs_le]
        push_neg
        intro hl
        linarith
      simp only [List.filter_cons]
      rw [if_pos (by simpa using h1), if_neg (by simpa using h2),
        if_neg (by simpa using h3)]
      simp only [List.map_cons, List.sum_cons]
      rw [ih]
      ring
    · by_cases h2 : 1 / 100 < a.balance
      · have h3 : ¬ |a.balance| ≤ 1 / 100 := by
          rw [abs_le]
          push_neg
          intro hl
          linarith
        simp only [List.filter_cons]
        rw [if_neg (by simpa using h1), if_pos (by simpa using h2),
          if_neg (by simpa using h3)]
        simp only [List.map_cons, List.sum_cons]
        rw [ih]
        ring
      · have h3 : |a.balance| ≤ 1 / 100 := abs_le.mpr ⟨by linarith, by linarith⟩
        simp only [List.filter_cons]
        rw [if_neg (by simpa using h1), if_neg (by simpa using h2),
          if_pos (by simpa using h3)]
        simp only [List.map_cons, List.sum_cons]
        rw [ih]
        ring

theorem list_sum_ones (l : List α) :
    (l.map (fun _ => (1 : ℚ))).sum = (l.length : ℚ) := by
  induction l with
  | nil => simp
  | cons a t ih =>
    simp only [List.map_cons, List.sum_cons, List.length_cons, ih]
    push_cast
    ring

/-- C3 amended: on a zero-sum duplicate-free cents balance list the minimizer
never over-assigns (per-debtor emitted sums stay at or below the debt, per-
creditor sums at or below the credit, near-zero entries and the opposite sides
are untouched), and the shortfall of every entry — hence every post-transfer
balance — is bounded by one epsilon (0.01) per balance-list entry, not by a
single epsilon. -/
theorem c3_amended_minimizer_bounded (balances : List UserBalance)
    (hsum : (balances.map UserBalance.balance).sum = 0)
    (hcents : ∀ b ∈ balances, isCents b.balance)
    (hnd : (balances.map UserBalance.userId).Nodup) :
    (∀ b ∈ balances, b.balance < -(1 / 100) →
      sentBy b.userId (buildDebtLines balances) ≤ -b.balance
      ∧ -b.balance - sentBy b.userId (buildDebtLines balances)
          ≤ (balances.length : ℚ) * (1 / 100)
      ∧ recvBy b.userId (buildDebtLines balances) = 0)
    ∧ (∀ b ∈ balances, 1 / 100 < b.balance →
      recvBy b.userId (buildDebtLines balances) ≤ b.balance
      ∧ b.balance - recvBy b.userId (buildDebtLines balances)
          ≤ (balances.length : ℚ) * (1 / 100)
      ∧ sentBy b.userId (buildDebtLines balances) = 0)
    ∧ (∀ b ∈ balances, |b.balance| ≤ 1 / 100 →
      sentBy b.userId (buildDebtLines balances) = 0
      ∧ recvBy b.userId (buildDebtLines balances) = 0)
    ∧ (∀ b ∈ balances,
      |b.balance + sentBy b.userId (buildDebtLines balances)
        - recvBy b.userId (buildDebtLines balances)|
          ≤ (balances.length : ℚ) * (1 / 100)) := by
  have hT : buildDebtLines balances
      = sweep ((balances.filter (fun b => b.balance < -(1 / 100))).map
          (fun b => ({ id := b.userId, amount := |b.balance| } : Party)))
        ((balances.filter (fun b => 1 / 100 < b.balance)).map
          (fun b => ({ id := b.userId, amount := b.balance } : Party))) := rfl
  set dsB := balances.filter (fun b => b.balance < -(1 / 100)) with hdsB
  set csB := balances.filter (fun b => 1 / 100 < b.balance) with hcsB
  set ds := dsB.map (fun b => ({ id := b.userId, amount := |b.balance| } : Party))
    with hds
  set cs := csB.map (fun b => ({ id := b.userId, amount := b.balance } : Party))
    with hcs
  rw [hT]
  -- basic facts about the debtor entries
  have hmem_dsB : ∀ b ∈ dsB, b ∈ balances ∧ b.balance < -(1 / 100) := by
    intro b hb
    rw [hdsB, List.mem_filter] at hb
    exact ⟨hb.1, by simpa using hb.2⟩
  have hmem_csB : ∀ b ∈ csB, b ∈ balances ∧ 1 / 100 < b.balance := by
    intro b hb
    rw [hcsB, List.mem_filter] at hb
    exact ⟨hb.1, by simpa using hb.2⟩
  have hdpos : ∀ x ∈ ds, 1 / 100 < x.amount := by
    intro x hx
    rw [hds] at hx
    obtain ⟨b, hb, rfl⟩ := List.mem_map.mp hx
    obtain ⟨_, hlt⟩ := hmem_dsB b hb
    show 1 / 100 < |b.balance|
    rw [abs_of_neg (by linarith)]
    linarith
  have hcpos : ∀ x ∈ cs, 1 / 100 < x.amount := by
    intro x hx
    rw [hcs] at hx
    obtain ⟨b, hb, rfl⟩ := List.mem_map.mp hx
    exact (hmem_csB b hb).2
  have hcentsP : ∀ x ∈ ds ++ cs, isCents x.amount := by
    intro x hx
    rcases List.mem_append.mp hx with hx | hx
    · rw [hds] at hx
      obtain ⟨b, hb, rfl⟩ := List.mem_map.mp hx
      exact isCents_abs (hcents b (hmem_dsB b hb).1)
    · rw [hcs] at hx
      obtain ⟨b, hb, rfl⟩ := List.mem_map.mp hx
      exact hcents b (hmem_csB b hb).1
  have hdsids : ds.map Party.id = dsB.map UserBalance.userId := by
    rw [hds, List.map_map]
    rfl
  have hcsids : cs.map Party.id = csB.map UserBalance.userId := by
    rw [hcs, List.map_map]
    rfl
  have hinj := List.inj_on_of_nodup_map hnd
  have hnd_dsB : (dsB.map UserBalance.userId).Nodup := by
    refine List.Nodup.sublist (List.Sublist.map _ ?_) hnd
    rw [hdsB]
    exact List.filter_sublist balances
  have hnd_csB : (csB.map UserBalance.userId).Nodup := by
    refine List.Nodup.sublist (List.Sublist.map _ ?_) hnd
    rw [hcsB]
    exact List.filter_sublist balances
  have hdisjBB : ∀ u, u ∈ dsB.map UserBalance.userId →
      u ∈ csB.map UserBalance.userId → False := by
    intro u hu1 hu2
    obtain ⟨b1, hb1, rfl⟩ := List.mem_map.mp hu1
    obtain ⟨b2, hb2, heq⟩ := List.mem_map.mp hu2
    have hb1m := hmem_dsB b1 hb1
    have hb2m := hmem_csB b2 hb2
    have : b2 = b1 := hinj hb2m.1 hb1m.1 heq
    subst this
    linarith [hb1m.2, hb2m.2]
  have hndP : ((ds ++ cs).map Party.id).Nodup := by
    rw [List.map_append, List.nodup_append, hdsids, hcsids]
    exact ⟨hnd_dsB, hnd_csB, fun u hu1 hu2 => hdisjBB u hu1 hu2⟩
  obtain ⟨hS, hR, hS0, hR0⟩ := sweep_party_bounds ds cs hdpos hcpos hcentsP hndP
  obtain ⟨ht1, ht2, ht3, ht4⟩ := sweep_total_bound ds cs hdpos hcpos hcentsP
  -- translate party sums into balance sums
  have hsumds : sumAmt ds = -((dsB.map UserBalance.balance).sum) := by
    rw [hds]
    unfold sumAmt
    rw [List.map_map]
    have hcg : dsB.map (Party.amount ∘ fun b =>
        ({ id := b.userId, amount := |b.balance| } : Party))
        = dsB.map (fun b => -(b.balance)) := by
      apply List.map_congr_left
      intro b hb
      show |b.balance| = -b.balance
      exact abs_of_neg (by linarith [(hmem_dsB b hb).2])
    rw [hcg, list_sum_neg]
  have hsumcs : sumAmt cs = (csB.map UserBalance.balance).sum := by
    rw [hcs]
    unfold sumAmt
    rw [List.map_map]
    rfl
  -- the zero total sum gives a bound on the imbalance of the two sides
  have hpart := balance_partition balances UserBalance.balance
  rw [hsum] at hpart
  set restB := balances.filter (fun b => |b.balance| ≤ 1 / 100) with hrestB
  have hmem_restB : ∀ b ∈ restB, b ∈ balances ∧ |b.balance| ≤ 1 / 100 := by
    intro b hb
    rw [hrestB, List.mem_filter] at hb
    exact ⟨hb.1, by simpa using hb.2⟩
  have hrestbd : |(restB.map UserBalance.balance).sum|
      ≤ (restB.length : ℚ) * (1 / 100) :=
    list_abs_sum_le restB UserBalance.balance (1 / 100)
      (fun b hb => (hmem_restB b hb).2)
  have hDelta : sumAmt ds - sumAmt cs = (restB.map UserBalance.balance).sum := by
    rw [hsumds, hsumcs]
    linarith [hpart]
  have hlenpart := balance_partition balances (fun _ => (1 : ℚ))
  rw [list_sum_ones, list_sum_ones, list_sum_ones, list_sum_ones] at hlenpart
  have hlends : ds.length = dsB.length := by rw [hds, List.length_map]
  have hlencs : cs.length = csB.length := by rw [hcs, List.length_map]
  -- residual bounds in terms of the full list length
  have hmax_le : ∀ x : ℚ, max x 0 ≤ |x| :=
    fun x => max_le (le_abs_self x) (abs_nonneg x)
  have hResidD : sumAmt ds - totalAmt (sweep ds cs)
      ≤ (balances.length : ℚ) * (1 / 100) := by
    have h1 := ht3
    have h2 : max (sumAmt ds - sumAmt cs) 0 ≤ (restB.length : ℚ) * (1 / 100) := by
      rw [hDelta] at *
      exact le_trans (hmax_le _) hrestbd
    have h3 : ((ds.length + cs.length : ℕ) : ℚ) = (dsB.length : ℚ) + (csB.length : ℚ) := by
      rw [hlends, hlencs]
      push_cast
      ring
    rw [h3] at h1
    have h4 : (balances.length : ℚ)
        = (dsB.length : ℚ) + (csB.length : ℚ) + (restB.length : ℚ) := hlenpart
    nlinarith [h1, h2]
  have hResidC : sumAmt cs - totalAmt (sweep ds cs)
      ≤ (balances.length : ℚ) * (1 / 100) := by
    have h1 := ht4
    have h2 : max (sumAmt cs - sumAmt ds) 0 ≤ (restB.length : ℚ) * (1 / 100) := by
      have : sumAmt cs - sumAmt ds = -((restB.map UserBalance.balance).sum) := by
        linarith [hDelta]
      rw [this]
      refine le_trans (hmax_le _) ?_
      rw [abs_neg]
      exact hrestbd
    have h3 : ((ds.length + cs.length : ℕ) : ℚ) = (dsB.length : ℚ) + (csB.length : ℚ) := by
      rw [hlends, hlencs]
      push_cast
      ring
    rw [h3] at h1
    have h4 : (balances.length : ℚ)
        = (dsB.length : ℚ) + (csB.length : ℚ) + (restB.length : ℚ) := hlenpart
    nlinarith [h1, h2]
  -- per-party shortfall bounded by the total residual
  have hfibD : (ds.map (fun x => sentBy x.id (sweep ds cs))).sum
      = totalAmt (sweep ds cs) := by
    have hcov : ∀ l ∈ sweep ds cs, l.fromId ∈ ds.map Party.id :=
      fun l hl => (sweep_line_ids ds cs l hl).1
    have hndD : (ds.map Party.id).Nodup := by
      rw [hdsids]
      exact hnd_dsB
    have h := sum_fibers (sweep ds cs) DebtLine.fromId DebtLine.amount
      (ds.map Party.id) hndD hcov
    rw [List.map_map] at h
    exact h
  have hfibC : (cs.map (fun x => recvBy x.id (sweep ds cs))).sum
      = totalAmt (sweep ds cs) := by
    have hcov : ∀ l ∈ sweep ds cs, l.toId ∈ cs.map Party.id :=
      fun l hl => (sweep_line_ids ds cs l hl).2
    have hndC : (cs.map Party.id).Nodup := by
      rw [hcsids]
      exact hnd_csB
    have h := sum_fibers (sweep ds cs) DebtLine.toId DebtLine.amount
      (cs.map Party.id) hndC hcov
    rw [List.map_map] at h
    exact h
  have hshortD : ∀ x ∈ ds, x.amount - sentBy x.id (sweep ds cs)
      ≤ sumAmt ds - totalAmt (sweep ds cs) := by
    intro x hx
    have hterms : ∀ q ∈ ds.map (fun y => y.amount - sentBy y.id (sweep ds cs)), 0 ≤ q := by
      intro q hq
      obtain ⟨y, hy, rfl⟩ := List.mem_map.mp hq
      linarith [hS y hy]
    have hsummed : (ds.map (fun y => y.amount - sentBy y.id (sweep ds cs))).sum
        = sumAmt ds - totalAmt (sweep ds cs) := by
      rw [list_sum_sub, hfibD]
      rfl
    have hmm : x.amount - sentBy x.id (sweep ds cs)
        ∈ ds.map (fun y => y.amount - sentBy y.id (sweep ds cs)) :=
      List.mem_map.mpr ⟨x, hx, rfl⟩
    calc x.amount - sentBy x.id (sweep ds cs)
        ≤ (ds.map (fun y => y.amount - sentBy y.id (sweep ds cs))).sum :=
          List.single_le_sum hterms _ hmm
      _ = sumAmt ds - totalAmt (sweep ds cs) := hsummed
  have hshortC : ∀ x ∈ cs, x.amount - recvBy x.id (sweep ds cs)
      ≤ sumAmt cs - totalAmt (sweep ds cs) := by
    intro x hx
    have hterms : ∀ q ∈ cs.map (fun y => y.amount - recvBy y.id (sweep ds cs)), 0 ≤ q := by
      intro q hq
      obtain ⟨y, hy, rfl⟩ := List.mem_map.mp hq
      linarith [hR y hy]
    have hsummed : (cs.map (fun y => y.amount - recvBy y.id (sweep ds cs))).sum
        = sumAmt cs - totalAmt (sweep ds cs) := by
      rw [list_sum_sub, hfibC]
      rfl
    have hmm : x.amount - recvBy x.id (sweep ds cs)
        ∈ cs.map (fun y => y.amount - recvBy y.id (sweep ds cs)) :=
      List.mem_map.mpr ⟨x, hx, rfl⟩
    calc x.amount - recvBy x.id (sweep ds cs)
        ≤ (cs.map (fun y => y.amount - recvBy y.id (sweep ds cs))).sum :=
          List.single_le_sum hterms _ hmm
      _ = sumAmt cs - totalAmt (sweep ds cs) := hsummed
  -- membership of user ids on each side
  have hid_ds : ∀ b ∈ balances, b.balance < -(1 / 100) →
      b.userId ∈ ds.map Party.id := by
    intro b hb hlt
    rw [hdsids]
    refine List.mem_map.mpr ⟨b, ?_, rfl⟩
    rw [hdsB, List.mem_filter]
    exact ⟨hb, by simpa using hlt⟩
  have hid_cs : ∀ b ∈ balances, 1 / 100 < b.balance →
      b.userId ∈ cs.map Party.id := by
    intro b hb hlt
    rw [hcsids]
    refine List.mem_map.mpr ⟨b, ?_, rfl⟩
    rw [hcsB, List.mem_filter]
    exact ⟨hb, by simpa using hlt⟩
  have hnotin_ds : ∀ b ∈ balances, ¬ b.balance < -(1 / 100) →
      b.userId ∉ ds.map Party.id := by
    intro b hb hnlt hin
    rw [hdsids] at hin
    obtain ⟨b1, hb1, heq⟩ := List.mem_map.mp hin
    have hb1m := hmem_dsB b1 hb1
    have : b1 = b := hinj hb1m.1 hb heq
    subst this
    exact hnlt hb1m.2
  have hnotin_cs : ∀ b ∈ balances, ¬ 1 / 100 < b.balance →
      b.userId ∉ cs.map Party.id := by
    intro b hb hnlt hin
    rw [hcsids] at hin
    obtain ⟨b1, hb1, heq⟩ := List.mem_map.mp hin
    have hb1m := hmem_csB b1 hb1
    have : b1 = b := hinj hb1m.1 hb heq
    subst this
    exact hnlt hb1m.2
  -- the three per-entry clauses
  have hclauseD : ∀ b ∈ balances, b.balance < -(1 / 100) →
      sentBy b.userId (sweep ds cs) ≤ -b.balance
      ∧ -b.balance - sentBy b.userId (sweep ds cs)
          ≤ (balances.length : ℚ) * (1 / 100)
      ∧ recvBy b.userId (sweep ds cs) = 0 := by
    intro b hb hlt
    have hxb : ({ id := b.userId, amount := |b.balance| } : Party) ∈ ds := by
      rw [hds]
      refine List.mem_map.mpr ⟨b, ?_, rfl⟩
      rw [hdsB, List.mem_filter]
      exact ⟨hb, by simpa using hlt⟩
    have habs : |b.balance| = -b.balance := abs_of_neg (by linarith)
    have h1 := hS _ hxb
    have h2 := hshortD _ hxb
    simp only at h1 h2
    rw [habs] at h1 h2
    have h3 : recvBy b.userId (sweep ds cs) = 0 :=
      hR0 b.userId (hnotin_cs b hb (by linarith))
    exact ⟨h1, by linarith, h3⟩
  have hclauseC : ∀ b ∈ balances, 1 / 100 < b.balance →
      recvBy b.userId (sweep ds cs) ≤ b.balance
      ∧ b.balance - recvBy b.userId (sweep ds cs)
          ≤ (balances.length : ℚ) * (1 / 100)
      ∧ sentBy b.userId (sweep ds cs) = 0 := by
    intro b hb hlt
    have hxb : ({ id := b.userId, amount := b.balance } : Party) ∈ cs := by
      rw [hcs]
      refine List.mem_map.mpr ⟨b, ?_, rfl⟩
      rw [hcsB, List.mem_filter]
      exact ⟨hb, by simpa using hlt⟩
    have h1 := hR _ hxb
    have h2 := hshortC _ hxb
    simp only at h1 h2
    have h3 : sentBy b.userId (sweep ds cs) = 0 :=
      hS0 b.userId (hnotin_ds b hb (by linarith))
    exact ⟨h1, by linarith, h3⟩
  have hclauseZ : ∀ b ∈ balances, |b.balance| ≤ 1 / 100 →
      sentBy b.userId (sweep ds cs) = 0 ∧ recvBy b.userId (sweep ds cs) = 0 := by
    intro b hb hle
    rw [abs_le] at hle
    exact ⟨hS0 b.userId (hnotin_ds b hb (by linarith)),
      hR0 b.userId (hnotin_cs b hb (by linarith))⟩
  refine ⟨hclauseD, hclauseC, hclauseZ, ?_⟩
  intro b hb
  by_cases h1 : b.balance < -(1 / 100)
  · obtain ⟨hle, hdev, hrecv0⟩ := hclauseD b hb h1
    rw [hrecv0, sub_zero]
    have habs0 : b.balance + sentBy b.userId (sweep ds cs) ≤ 0 := by
      linarith only [hle]
    rw [abs_of_nonpos habs0]
    linarith only [hdev]
  · by_cases h2 : 1 / 100 < b.balance
    · obtain ⟨hle, hdev, hsent0⟩ := hclauseC b hb h2
      rw [hsent0, add_zero]
      have habs0 : 0 ≤ b.balance - recvBy b.userId (sweep ds cs) := by
        linarith only [hle]
      rw [abs_of_nonneg habs0]
      linarith only [hdev]
    · have hle : |b.balance| ≤ 1 / 100 := abs_le.mpr ⟨by linarith only [h1], by linarith only [h2]⟩
      obtain ⟨hs0, hr0⟩ := hclauseZ b hb hle
      rw [hs0, hr0, add_zero, sub_zero]
      have hn1 : (1 : ℚ) ≤ (balances.length : ℚ) := by
        have hpos : 0 < balances.length := List.length_pos_of_mem hb
        exact_mod_cast hpos
      calc |b.balance| ≤ 1 / 100 := hle
        _ = 1 * (1 / 100) := by ring
        _ ≤ (balances.length : ℚ) * (1 / 100) :=
          mul_le_mul_of_nonneg_right hn1 (by norm_num)

/-- C3 counterexample: the balances −0.02, +0.01, +0.01 sum to zero, yet both
creditors fall at the 0.01 filter, the minimizer emits no transfer, and the
debtor A is left 0.02 — more than ε — away from their debt, so the emitted
per-debtor sum does not match the debt within ε and applying the transfers
does not bring every balance within ε of zero. -/
theorem c3_counterexample :
    ((exBalances.map UserBalance.balance).sum = 0)
    ∧ (∀ b ∈ exBalances, isCents b.balance)
    ∧ (exBalances.map UserBalance.userId).Nodup
    ∧ ((-(2 : ℚ) / 100) < -(1 / 100))
    ∧ buildDebtLines exBalances = []
    ∧ sentBy "A" (buildDebtLines exBalances) = 0
    ∧ ¬ ((2 : ℚ) / 100 - sentBy "A" (buildDebtLines exBalances) ≤ 1 / 100)
    ∧ ¬ (|(-(2 : ℚ) / 100) + sentBy "A" (buildDebtLines exBalances)
          - recvBy "A" (buildDebtLines exBalances)| ≤ 1 / 100) := by
  have hempty : buildDebtLines exBalances = [] := by
    norm_num [buildDebtLines, exBalances, List.filter]
    simp [sweep]
  have hsent : sentBy "A" (buildDebtLines exBalances) = 0 := by
    rw [hempty]
    simp [sentBy]
  have hrecv : recvBy "A" (buildDebtLines exBalances) = 0 := by
    rw [hempty]
    simp [recvBy]
  refine ⟨by norm_num [exBalances], by norm_num [exBalances, isCents],
    by simp [exBalances], by norm_num, hempty, hsent, ?_, ?_⟩
  · rw [hsent]
    norm_num
  · rw [hsent, hrecv]
    norm_num
    rw [abs_of_pos (show (0 : ℚ) < 1 / 50 by norm_num)]
    norm_num

/-- Witness for the amended C3 at the two-entry balance list −5.00 / +5.00. -/
theorem c3_witness :
    ((exBalances2.map UserBalance.balance).sum = 0)
    ∧ (∀ b ∈ exBalances2, isCents b.balance)
    ∧ (exBalances2.map UserBalance.userId).Nodup
    ∧ ((∀ b ∈ exBalances2, b.balance < -(1 / 100) →
        sentBy b.userId (buildDebtLines exBalances2) ≤ -b.balance
        ∧ -b.balance - sentBy b.userId (buildDebtLines exBalances2)
            ≤ (exBalances2.length : ℚ) * (1 / 100)
        ∧ recvBy b.userId (buildDebtLines exBalances2) = 0)
      ∧ (∀ b ∈ exBalances2, 1 / 100 < b.balance →
        recvBy b.userId (buildDebtLines exBalances2) ≤ b.balance
        ∧ b.balance - recvBy b.userId (buildDebtLines exBalances2)
            ≤ (exBalances2.length : ℚ) * (1 / 100)
        ∧ sentBy b.userId (buildDebtLines exBalances2) = 0)
      ∧ (∀ b ∈ exBalances2, |b.balance| ≤ 1 / 100 →
        sentBy b.userId (buildDebtLines exBalances2) = 0
        ∧ recvBy b.userId (buildDebtLines exBalances2) = 0)
      ∧ (∀ b ∈ exBalances2,
        |b.balance + sentBy b.userId (buildDebtLines exBalances2)
          - recvBy b.userId (buildDebtLines exBalances2)|
            ≤ (exBalances2.length : ℚ) * (1 / 100))) := by
  have hsum : (exBalances2.map UserBalance.balance).sum = 0 := by
    norm_num [exBalances2]
  have hcents : ∀ b ∈ exBalances2, isCents b.balance := by
    norm_num [exBalances2, isCents]
  have hnd : (exBalances2.map UserBalance.userId).Nodup := by
    simp [exBalances2]
  exact ⟨hsum, hcents, hnd, c3_amended_minimizer_bounded exBalances2 hsum hcents hnd⟩

end Sha2etna
